import Mathlib

set_option maxRecDepth 4000

/-!
Verification development for the Vikunja kanban helper
(`plugins/vikunja-kanban/skills/vikunja-kanban/scripts/vikunja.py`).

Strings are modelled as `List Char`.  Python's `str` operations are embedded
one-to-one (`strip`, `lstrip`, `rstrip`, `split`, `replace`, `in`,
`startswith`, `lower`, `html.escape`, ...).  Whitespace is modelled by the six
ASCII whitespace characters recognised by Python's default `strip`; the
non-ASCII whitespace code points Python additionally strips play no role in
any input considered here.  `date.today().isoformat()` is an I/O input and is
passed explicitly as a `today` parameter.
-/

/-- The six ASCII characters Python's default `strip`/`split` treat as whitespace. -/
def isPySpace (c : Char) : Bool :=
  c = ' ' || c = '\t' || c = '\n' || c = '\r' || c = '\x0b' || c = '\x0c'

/-- Python `s.lstrip()`. -/
def pyLstrip (s : List Char) : List Char := s.dropWhile isPySpace

/-- Python `s.rstrip()`. -/
def pyRstrip (s : List Char) : List Char := (s.reverse.dropWhile isPySpace).reverse

/-- Python `s.strip()`. -/
def pyStrip (s : List Char) : List Char := pyLstrip (pyRstrip s)

/-- Python `s.lower()` (ASCII case mapping; all relevant inputs are ASCII). -/
def pyLower (s : List Char) : List Char := s.map Char.toLower

/-- Python truthiness of an optional string (`None` and `""` are falsy). -/
def truthyOpt : Option (List Char) → Bool
  | none => false
  | some s => !s.isEmpty

/-- Python `pat in s` (substring containment). -/
def containsB (pat : List Char) : List Char → Bool
  | [] => pat.isEmpty
  | c :: cs => pat.isPrefixOf (c :: cs) || containsB pat cs

/-- Number of positions of `s` at which `pat` occurs (for the delimiters used
here, which cannot overlap themselves, this is Python's `s.count(pat)`). -/
def countOccs (pat : List Char) : List Char → Nat
  | [] => if pat.isEmpty then 1 else 0
  | c :: cs => (if pat.isPrefixOf (c :: cs) then 1 else 0) + countOccs pat cs

/-- The text before and after the first occurrence of `sep` in `s`
(`none` when `sep` does not occur).  Building block for Python `s.split(sep)`. -/
def splitFirst? (sep : List Char) : List Char → Option (List Char × List Char)
  | [] => if sep.isEmpty then some ([], []) else none
  | c :: cs =>
    if sep.isPrefixOf (c :: cs) then some ([], (c :: cs).drop sep.length)
    else (splitFirst? sep cs).map (fun p => (c :: p.1, p.2))

/-- Python `s.split(sep)[0]`: the text before the first occurrence of `sep`,
or all of `s` when `sep` does not occur. -/
def split0 (sep s : List Char) : List Char :=
  match splitFirst? sep s with
  | none => s
  | some p => p.1

/-- Python `s.split(sep)[1]`: the text between the first and the second
occurrence of `sep` (everything after the first occurrence when there is no
second one).  When `sep` does not occur Python raises `IndexError`; every
caller in the source guards with `sep in s`, so that case is unreachable and
is mapped to `[]`. -/
def split1after (sep s : List Char) : List Char :=
  match splitFirst? sep s with
  | none => []
  | some p =>
    match splitFirst? sep p.2 with
    | none => p.2
    | some q => q.1

/-- Splitting on a single character, keeping empty segments (Python
`s.split(sep)` for a one-character separator). -/
def pySplitChar (sep : Char) : List Char → List (List Char)
  | [] => [[]]
  | c :: cs =>
    if c = sep then [] :: pySplitChar sep cs
    else
      match pySplitChar sep cs with
      | [] => [[c]]
      | seg :: rest => (c :: seg) :: rest

/-- Python `s.splitlines()` for `\n`-separated text: `""` gives `[]`, and a
trailing newline does not produce a trailing empty line.  (Python also splits
on `\r` and other line boundaries; the descriptions handled here use `\n`.) -/
def pySplitLines (s : List Char) : List (List Char) :=
  if s.isEmpty then []
  else
    let segs := pySplitChar '\n' s
    if segs.getLast? = some [] then segs.dropLast else segs

/-- Python `s.replace("\t", "  ")` (single-character pattern). -/
def expandTabs (s : List Char) : List Char :=
  s.flatMap (fun c => if c = '\t' then "  ".data else [c])

/-- One step of Python `html.escape(value, quote=True)`.  The source applies
the five single-character replacements sequentially; since no replacement
string contains a character replaced later, this equals the per-character map. -/
def escChar (c : Char) : List Char :=
  if c = '&' then "&amp;".data
  else if c = '<' then "&lt;".data
  else if c = '>' then "&gt;".data
  else if c = '"' then "&quot;".data
  else if c = '\'' then "&#x27;".data
  else [c]

/-- `escape_html(value)` from the source: `html.escape(value, quote=True)`. -/
def escape_html (s : List Char) : List Char := s.flatMap escChar

/-- Python `s.replace(pat, v)`, written with explicit fuel so that it is
structurally recursive; the initial fuel `s.length` is enough for the whole
scan since every step consumes at least one character of `s`. -/
def pyReplaceAux (pat v : List Char) : Nat → List Char → List Char
  | 0, s => s
  | _, [] => []
  | fuel+1, c :: cs =>
    if pat.isPrefixOf (c :: cs) then v ++ pyReplaceAux pat v fuel (cs.drop (pat.length - 1))
    else c :: pyReplaceAux pat v fuel cs

/-- Python `s.replace(pat, v)`.  (For `pat = ""` Python interleaves `v`
between all characters; the patterns used by the source are never empty, so
that case is mapped to `s`.) -/
def pyReplace (pat v s : List Char) : List Char :=
  if pat.isEmpty then s else pyReplaceAux pat v s.length s

/-! ## Constants of the source -/

def MANAGED_MARKER : List Char := "<!-- vikunja-skill:managed -->".data

def STATUS_START : List Char := "<!-- vikunja-skill:status-start -->".data

def STATUS_END : List Char := "<!-- vikunja-skill:status-end -->".data

/-! ## Status block codec -/

/-- `is_managed(description)` from the source. -/
def is_managed (description : List Char) : Bool := containsB MANAGED_MARKER description

/-- `status_block(summary_html, progress)` from the source; `today` is the
value of `date.today().isoformat()`. -/
def status_block (today summary_html progress : List Char) : List Char :=
  List.intercalate "\n".data
    [STATUS_START,
     "<p><strong>Sammanfattning:</strong></p>".data,
     summary_html,
     "<p><strong>Progress:</strong> ".data ++ escape_html progress ++ "</p>".data,
     "<p><strong>Senast uppdaterad:</strong> ".data ++ today ++ "</p>".data,
     STATUS_END]

/-- `update_status_in_description(description, summary_html, progress)` from
the source. -/
def update_status_in_description (today description summary_html progress : List Char) :
    List Char :=
  let block := status_block today summary_html progress
  if containsB STATUS_START description && containsB STATUS_END description then
    pyStrip (List.intercalate "\n".data
      [pyRstrip (split0 STATUS_START description), block,
       pyLstrip (split1after STATUS_END description)]) ++ "\n".data
  else
    pyRstrip description ++ "\n\n".data ++ block ++ "\n".data

/-- `render_template(template, values)` from the source (dict iteration order
is insertion order, modelled by the order of the association list). -/
def render_template (template : List Char) (values : List (List Char × List Char)) :
    List Char :=
  values.foldl
    (fun acc kv => pyReplace ("\x7b\x7b".data ++ kv.1 ++ "\x7d\x7d".data) kv.2 acc)
    template

/-- `normalize_field(value)` from the source. -/
def normalize_field (value : Option (List Char)) : List Char :=
  match value with
  | none => "–".data
  | some v =>
    let v := pyStrip v
    if v.isEmpty then "–".data else v

/-! ## HTML renderer -/

/-- `_is_list_line(line)` from the source. -/
def _is_list_line (line : List Char) : Bool :=
  let stripped := line.dropWhile (fun c => c = ' ' || c = '\t')
  "-".data.isPrefixOf stripped || "*".data.isPrefixOf stripped

/-- `_apply_checkbox(content)` from the source. -/
def _apply_checkbox (content : List Char) : List Char :=
  let lowered := pyLower content
  if "[ ]".data.isPrefixOf lowered then "☐ ".data ++ pyLstrip (content.drop 3)
  else if "[x]".data.isPrefixOf lowered then "☑ ".data ++ pyLstrip (content.drop 3)
  else content

/-- `len(line) - len(line.lstrip(" "))`: the number of leading spaces. -/
def leadCount (l : List Char) : Nat := l.length - (l.dropWhile (fun c => c = ' ')).length

/-- The `(level, content)` items `_render_list` computes before emission. -/
def _render_list_items (lines : List (List Char)) : List (Nat × List Char) :=
  let expanded := lines.map expandTabs
  let min_indent :=
    match expanded.map leadCount with
    | [] => 0
    | x :: xs => xs.foldl Nat.min x
  expanded.map (fun line =>
    let indent := leadCount line
    let content := pyLstrip line
    let content :=
      if "-".data.isPrefixOf content || "*".data.isPrefixOf content then
        pyLstrip (content.drop 1)
      else content
    (Nat.min ((indent - min_indent) / 2) 2, _apply_checkbox content))

/-- The state of `_render_nested_list`'s emission loop: the `parts` list of
emitted fragments, `current_level`, and the `open_li` stack. -/
structure NLState where
  parts : List (List Char)
  current_level : Nat
  open_li : List Bool
deriving DecidableEq

def ulOpenTag : List Char := "<ul>".data

def ulCloseTag : List Char := "</ul>".data

def liCloseTag : List Char := "</li>".data

/-- The `while current_level < level` loop, run `n` times. -/
def riseN : Nat → NLState → NLState
  | 0, st => st
  | n+1, st => riseN n ⟨st.parts ++ [ulOpenTag], st.current_level + 1, st.open_li ++ [false]⟩

/-- `if open_li[current_level]: parts.append("</li>"); open_li[current_level] = False`. -/
def closeLiAt (st : NLState) : NLState :=
  if st.open_li.getD st.current_level false then
    ⟨st.parts ++ [liCloseTag], st.current_level, st.open_li.set st.current_level false⟩
  else st

/-- The `while current_level > level` loop, run `n` times. -/
def fallN : Nat → NLState → NLState
  | 0, st => st
  | n+1, st =>
    let st' := closeLiAt st
    fallN n ⟨st'.parts ++ [ulCloseTag], st'.current_level - 1, st'.open_li.dropLast⟩

/-- One iteration of `_render_nested_list`'s `for level, content in items` loop. -/
def nlStep (st : NLState) (item : Nat × List Char) : NLState :=
  let st1 :=
    if st.current_level < item.1 then riseN (item.1 - st.current_level) st
    else if item.1 < st.current_level then fallN (st.current_level - item.1) st
    else st
  let st2 := closeLiAt st1
  ⟨st2.parts ++ [("<li>".data ++ escape_html item.2)], st2.current_level,
    st2.open_li.set st2.current_level true⟩

/-- The final `while current_level > 0` loop (it appends `</li>` for an open
item without clearing the flag, then pops), run `n` times. -/
def finishN : Nat → NLState → NLState
  | 0, st => st
  | n+1, st =>
    let p1 := if st.open_li.getD st.current_level false then st.parts ++ [liCloseTag] else st.parts
    finishN n ⟨p1 ++ [ulCloseTag], st.current_level - 1, st.open_li.dropLast⟩

/-- The sequence of fragments `_render_nested_list(items)` appends to `parts`. -/
def _render_nested_list_parts (items : List (Nat × List Char)) : List (List Char) :=
  let st0 : NLState := ⟨[ulOpenTag], 0, [false]⟩
  let st := items.foldl nlStep st0
  let st1 := finishN st.current_level st
  let p2 := if st1.open_li.getD 0 false then st1.parts ++ [liCloseTag] else st1.parts
  p2 ++ [ulCloseTag]

/-- `_render_nested_list(items)` from the source (`"".join(parts)`). -/
def _render_nested_list (items : List (Nat × List Char)) : List Char :=
  (_render_nested_list_parts items).flatten

/-- `_render_list(lines)` from the source.  (Python's `min` over the indent
counts raises on an empty list; the only caller passes a non-empty `lines`.) -/
def _render_list (lines : List (List Char)) : List Char :=
  _render_nested_list (_render_list_items lines)

/-- The fragments `_render_list(lines)` emits. -/
def _render_list_parts (lines : List (List Char)) : List (List Char) :=
  _render_nested_list_parts (_render_list_items lines)

/-- `format_html_block(value)` from the source. -/
def format_html_block (value : List Char) : List Char :=
  let v := pyStrip value
  if v.isEmpty then "<p>–</p>".data
  else
    let raw_lines := (pySplitLines v).map pyRstrip
    let lines := raw_lines.filter (fun l => !(pyStrip l).isEmpty)
    if lines.isEmpty then "<p>–</p>".data
    else if lines.all _is_list_line then _render_list lines
    else
      "<p>".data ++
        List.intercalate "<br>".data (lines.map (fun l => escape_html (pyStrip l))) ++
        "</p>".data

/-! ## Task resolver -/

structure VLabel where
  title : List Char
deriving DecidableEq

structure VTask where
  title : List Char
  description : List Char
  labels : List VLabel
deriving DecidableEq

/-- `task_matches_label(task, label_name)` from the source. -/
def task_matches_label (task : VTask) (label_name : List Char) : Bool :=
  task.labels.any (fun l => pyLower (pyStrip l.title) == pyLower label_name)

/-- `find_task_by_matching(tasks, pr_number, branch, title)` from the source.
The sequence of early returns is modelled by trying each block in order. -/
def find_task_by_matching (tasks : List VTask)
    (pr_number branch title : Option (List Char)) : Option VTask :=
  let prRes :=
    if truthyOpt pr_number then
      let label_name := "pr-".data ++ pr_number.getD []
      match tasks.find? (fun t => task_matches_label t label_name) with
      | some t => some t
      | none =>
        let titlePre := "[PR-".data ++ pr_number.getD [] ++ "]".data
        tasks.find? (fun t => titlePre.isPrefixOf t.title)
    else none
  match prRes with
  | some t => some t
  | none =>
    let brRes :=
      if truthyOpt branch then
        let marker := "[branch:".data ++ branch.getD [] ++ "]".data
        tasks.find? (fun t => containsB marker t.title || containsB marker t.description)
      else none
    match brRes with
    | some t => some t
    | none =>
      if truthyOpt title && !truthyOpt pr_number && !truthyOpt branch then
        tasks.find? (fun t => pyLower (pyStrip t.title) == pyLower (pyStrip (title.getD [])))
      else none

/-! ## Configuration lookup -/

/-- `os.environ`, modelled as an association list in insertion order. -/
abbrev EnvMap := List (List Char × List Char)

/-- `os.environ.get(name)` / `name in os.environ`. -/
def environGet (env : EnvMap) (name : List Char) : Option (List Char) :=
  (env.find? (fun kv => kv.1 == name)).map (fun kv => kv.2)

/-- `s.split(c, 1)[0]`. -/
def takeUntilChar (sep : Char) (s : List Char) : List Char :=
  s.takeWhile (fun c => c != sep)

/-- `s.split(c, 1)[1]` (used only after membership of `c` was checked). -/
def dropAfterChar (sep : Char) (s : List Char) : List Char :=
  (s.dropWhile (fun c => c != sep)).drop 1

/-- The body of `load_zshrc_env`'s `for raw in lines` loop. -/
def applyZshrcLine (env : EnvMap) (raw : List Char) : EnvMap :=
  let line := pyStrip raw
  if line.isEmpty then env
  else if "#".data.isPrefixOf line then env
  else
    let line := if "export ".data.isPrefixOf line then pyStrip (line.drop 7) else line
    if !("VIKUNJA_".data.isPrefixOf line) then env
    else if !line.contains '=' then env
    else
      let key := pyStrip (takeUntilChar '=' line)
      let val := pyStrip (dropAfterChar '=' line)
      let val :=
        if !("\"".data.isPrefixOf val || "'".data.isPrefixOf val) && val.contains '#' then
          pyRstrip (takeUntilChar '#' val)
        else val
      let val :=
        if ("\"".data.isPrefixOf val && val.getLast? = some '"') ||
            ("'".data.isPrefixOf val && val.getLast? = some '\'') then
          (val.drop 1).dropLast
        else val
      if !key.isEmpty && (environGet env key).isNone then env ++ [(key, val)] else env

/-- `load_zshrc_env()` from the source, as a pure transformation of the
environment by the rc file's lines.  (File existence, read errors and the
process-global once-only guard are I/O concerns outside the embedding.) -/
def load_zshrc_env (env : EnvMap) (rcLines : List (List Char)) : EnvMap :=
  rcLines.foldl applyZshrcLine env

/-- `get_env(name, default, required)` from the source; returns `none` exactly
when the source calls `die`. -/
def get_env (env : EnvMap) (rcLines : List (List Char)) (name : List Char)
    (default : Option (List Char)) (required : Bool) : Option (List Char) :=
  let value :=
    match environGet env name with
    | some v => some v
    | none => default
  let value :=
    if !truthyOpt value then
      match environGet (load_zshrc_env env rcLines) name with
      | some v => some v
      | none => default
    else value
  if required && !truthyOpt value then none
  else some (value.getD [])

/-! ## Command-layer slices -/

/-- The description-updating slice of `cmd_progress_update` (lines 598-609):
the freshly fetched description is replaced by the merged status block only
when `is_managed` holds, else sent back unchanged.  The `progress` string is
computed by the source from `done`/`total` via floating-point arithmetic and
is passed here as an opaque input; the frame property is independent of it. -/
def progress_update_description (description today : List Char)
    (summaryArg : Option (List Char)) (progress : List Char) : List Char :=
  if is_managed description then
    update_status_in_description today description
      (format_html_block (normalize_field summaryArg)) progress
  else description

/-- Modelled from the spec: the on-disk asset
`assets/task_description_template.md` read by `load_asset` in
`cmd_ensure_task` is not under `src/`.  Per the spec the template path
"always yields a marker-bearing description", so the template is modelled as
any text containing the literal managed marker. -/
@[reducible] def templateIsManaged (template : List Char) : Prop := MANAGED_MARKER <:+: template

/-- The description-construction slice of `cmd_ensure_task` (lines 492-515):
a truthy `--description` gets the managed marker prepended when absent, and
otherwise the description is rendered from the template asset. -/
def cmd_ensure_task_description
    (descArg goal requirements solution definition pr_url pr_number : Option (List Char))
    (template today : List Char) : List Char :=
  if truthyOpt descArg then
    let d := descArg.getD []
    if containsB MANAGED_MARKER d then d else MANAGED_MARKER ++ "\n\n".data ++ d
  else
    let pr_section_html :=
      if truthyOpt pr_url || truthyOpt pr_number then
        let pr_label :=
          if truthyOpt pr_url then pr_url.getD [] else "PR #".data ++ pr_number.getD []
        "<h3>PR</h3>\n".data ++ format_html_block pr_label
      else []
    render_template template
      [("goal_html".data, format_html_block (normalize_field goal)),
       ("requirements_html".data, format_html_block (normalize_field requirements)),
       ("solution_html".data, format_html_block (normalize_field solution)),
       ("definition_of_done_html".data, format_html_block (normalize_field definition)),
       ("pr_section_html".data, pr_section_html),
       ("summary_html".data, escape_html ("Ej påbörjat".data)),
       ("progress".data, "0/0 (0%)".data),
       ("date".data, today)]


/-! ## Basic lemmas about the string primitives -/

theorem containsB_iff (pat s : List Char) : containsB pat s = true ↔ pat <:+: s := by
  induction s with
  | nil => simp [containsB, List.isEmpty_iff]
  | cons c cs ih => simp [containsB, ih, List.infix_cons_iff]

theorem containsB_false_iff (pat s : List Char) : containsB pat s = false ↔ ¬ pat <:+: s := by
  rw [← containsB_iff pat s]
  cases containsB pat s <;> simp

theorem countOccs_eq_zero_iff (pat s : List Char) :
    countOccs pat s = 0 ↔ containsB pat s = false := by
  induction s with
  | nil =>
    by_cases h : pat.isEmpty <;> simp [countOccs, containsB, h]
  | cons c cs ih =>
    by_cases h : pat.isPrefixOf (c :: cs) <;> simp [countOccs, containsB, h, ih]

theorem countOccs_zero_of_not_mem (pat s : List Char) (c : Char)
    (hc : pat.head? = some c) (hs : c ∉ s) : countOccs pat s = 0 := by
  induction s with
  | nil =>
    have : pat ≠ [] := by intro h; rw [h] at hc; exact Option.noConfusion hc
    simp [countOccs, List.isEmpty_iff, this]
  | cons b bs ih =>
    have hb : ¬ pat.isPrefixOf (b :: bs) := by
      intro h
      have hpfx : pat <+: b :: bs := List.isPrefixOf_iff_prefix.mp h
      have hne : pat ≠ [] := by intro h'; rw [h'] at hc; exact Option.noConfusion hc
      have := List.IsPrefix.head hpfx hne
      have hhd : pat.head hne = c := by
        cases pat with
        | nil => exact absurd rfl hne
        | cons p ps => simpa [List.head?] using hc
      rw [hhd] at this
      exact hs (this ▸ List.mem_cons_self b bs)
    have hs' : c ∉ bs := fun h => hs (List.mem_cons_of_mem b h)
    simp [countOccs, hb, ih hs']

/-- A prefix of `q ++ Z` is a prefix of `q` or has `q` as a prefix. -/
theorem prefix_split {v q Z : List Char} (h : v <+: q ++ Z) : v <+: q ∨ q <+: v := by
  rcases le_or_lt v.length q.length with hle | hlt
  · left
    have hv := List.prefix_iff_eq_take.mp h
    rw [List.take_append_eq_append_take, Nat.sub_eq_zero_of_le hle, List.take_zero,
      List.append_nil] at hv
    exact hv ▸ List.take_prefix v.length q
  · right
    have hv := List.prefix_iff_eq_take.mp h
    rw [List.take_append_eq_append_take] at hv
    have : q.take v.length = q := List.take_of_length_le (Nat.le_of_lt hlt)
    rw [this] at hv
    exact hv ▸ List.prefix_append q _

/-- A suffix of `Z ++ q` is a suffix of `q` or has `q` as a suffix. -/
theorem suffix_split {u Z q : List Char} (h : u <:+ Z ++ q) : u <:+ q ∨ q <:+ u := by
  have hr : u.reverse <+: q.reverse ++ Z.reverse := by
    have := List.IsSuffix.reverse h
    rwa [List.reverse_append] at this
  rcases prefix_split hr with h' | h'
  · left
    have := List.IsPrefix.reverse h'
    simpa using this
  · right
    have := List.IsPrefix.reverse h'
    simpa using this

theorem prefix_cancel_left {X t Y : List Char} (h : X ++ t <+: X ++ Y) : t <+: Y := by
  obtain ⟨w, hw⟩ := h
  rw [List.append_assoc] at hw
  exact ⟨w, List.append_cancel_left hw⟩

/-- No occurrence of `pat` spans the boundary between `X` and `Y` in `X ++ Y`. -/
def NoSpan (pat X Y : List Char) : Prop :=
  ∀ u v : List Char, u ++ v = pat → u ≠ [] → v ≠ [] → ¬ (u <:+ X ∧ v <+: Y)

theorem noSpan_of_head_right {pat X Y : List Char} {c : Char}
    (hY : Y.head? = some c) (hc : c ∉ pat) : NoSpan pat X Y := by
  intro u v huv hu hv ⟨_, hpfx⟩
  have hvY : v.head? = Y.head? := by
    cases v with
    | nil => exact absurd rfl hv
    | cons a as =>
      rcases hpfx with ⟨w, hw⟩
      rw [← hw]
      cases Y <;> simp_all
  have hcv : c ∈ v := by
    cases v with
    | nil => exact absurd rfl hv
    | cons a as =>
      have : a = c := by rw [hY] at hvY; simpa [List.head?] using hvY
      exact this ▸ List.mem_cons_self a as
  exact hc (List.IsSuffix.mem hcv ⟨u, huv⟩)

theorem noSpan_of_head_left {pat X Y : List Char} {c : Char}
    (hp : pat.head? = some c) (hc : c ∉ X) : NoSpan pat X Y := by
  intro u v huv hu hv ⟨hsfx, _⟩
  have hup : u <+: pat := ⟨v, huv⟩
  have huc : u.head? = pat.head? := by
    cases u with
    | nil => exact absurd rfl hu
    | cons a as =>
      rcases hup with ⟨w, hw⟩
      rw [← hw]
      cases pat <;> simp_all
  have hcu : c ∈ u := by
    cases u with
    | nil => exact absurd rfl hu
    | cons a as =>
      have : a = c := by rw [hp] at huc; simpa [List.head?] using huc
      exact this ▸ List.mem_cons_self a as
  exact hc (List.IsSuffix.mem hcu hsfx)

theorem noSpan_of_last_left {pat X Y : List Char} {c : Char}
    (hX : X.getLast? = some c) (hc : c ∉ pat) : NoSpan pat X Y := by
  intro u v huv hu hv ⟨hsfx, _⟩
  have hlast : u.getLast? = X.getLast? := by
    rcases hsfx with ⟨w, hw⟩
    rw [← hw, List.getLast?_append]
    obtain ⟨y, hy⟩ := Option.isSome_iff_exists.mp (List.getLast?_isSome.mpr hu)
    simp [hy]
  have hcu : c ∈ u := by
    rw [hX] at hlast
    exact List.mem_of_getLast?_eq_some hlast
  have hupat : c ∈ pat := List.IsPrefix.mem hcu ⟨v, huv⟩
  exact hc hupat

theorem noSpan_append_left {pat Z q Y : List Char}
    (hA : ∀ k, k < pat.length + 1 → 0 < k → ¬ (pat.take k <:+ q))
    (hB : ¬ q <:+: pat) : NoSpan pat (Z ++ q) Y := by
  intro u v huv hu hv ⟨hsfx, _⟩
  have hup : u <+: pat := ⟨v, huv⟩
  rcases suffix_split hsfx with h' | h'
  · have hu' : u = pat.take u.length := List.prefix_iff_eq_take.mp hup
    have hlen : u.length < pat.length + 1 :=
      Nat.lt_succ_of_le (List.IsPrefix.length_le hup)
    have hpos : 0 < u.length := List.length_pos.mpr hu
    exact hA u.length hlen hpos (hu' ▸ h')
  · exact hB (List.IsInfix.trans (List.IsSuffix.isInfix h') (List.IsPrefix.isInfix hup))

theorem noSpan_append_right {pat X q Z : List Char}
    (hA : ∀ k, k < pat.length → 0 < k → ¬ (pat.drop k <+: q))
    (hB : ¬ q <:+: pat) : NoSpan pat X (q ++ Z) := by
  intro u v huv hu hv ⟨_, hpfx⟩
  have hvs : v <:+ pat := ⟨u, huv⟩
  rcases prefix_split hpfx with h' | h'
  · have hv' : v = pat.drop u.length := by
      have := congrArg (List.drop u.length) huv
      rwa [List.drop_left] at this
    have hlen : u.length < pat.length := by
      have : u.length + v.length = pat.length := by
        rw [← huv, List.length_append]
      have hvpos : 0 < v.length := List.length_pos.mpr hv
      omega
    have hpos : 0 < u.length := List.length_pos.mpr hu
    exact hA u.length hlen hpos (hv' ▸ h')
  · exact hB (List.IsInfix.trans (List.IsPrefix.isInfix h') (List.IsSuffix.isInfix hvs))

theorem noSpan_mono_left {pat X X' Y : List Char} (h : NoSpan pat X Y) (hs : X' <:+ X) :
    NoSpan pat X' Y := by
  intro u v huv hu hv ⟨hsfx, hpfx⟩
  exact h u v huv hu hv ⟨List.IsSuffix.trans hsfx hs, hpfx⟩

theorem countOccs_append_of_noSpan (pat : List Char) (hpat : pat ≠ []) :
    ∀ (X Y : List Char), NoSpan pat X Y →
    countOccs pat (X ++ Y) = countOccs pat X + countOccs pat Y := by
  intro X
  induction X with
  | nil =>
    intro Y _
    simp [countOccs, List.isEmpty_iff, hpat]
  | cons c X' ih =>
    intro Y hns
    have hns' : NoSpan pat X' Y := noSpan_mono_left hns (List.suffix_cons c X')
    have hkey : pat.isPrefixOf (c :: (X' ++ Y)) = pat.isPrefixOf (c :: X') := by
      by_cases h : pat.isPrefixOf (c :: X') = true
      · rw [h]
        apply List.isPrefixOf_iff_prefix.mpr
        rw [← List.cons_append]
        exact List.IsPrefix.trans (List.isPrefixOf_iff_prefix.mp h) (List.prefix_append _ _)
      · rw [Bool.not_eq_true] at h
        rw [h]
        cases habs : pat.isPrefixOf (c :: (X' ++ Y)) with
        | false => rfl
        | true =>
          exfalso
          have h' : pat <+: (c :: X') ++ Y := by
            rw [List.cons_append]
            exact List.isPrefixOf_iff_prefix.mp habs
          rcases prefix_split h' with h'' | h''
          · exact absurd (List.isPrefixOf_iff_prefix.mpr h'') (by simp [h])
          · rcases h'' with ⟨t, ht⟩
            by_cases htn : t = []
            · rw [htn, List.append_nil] at ht
              rw [← ht] at h
              rw [show (c :: X').isPrefixOf (c :: X') = true from
                List.isPrefixOf_iff_prefix.mpr List.prefix_rfl] at h
              exact Bool.noConfusion h
            · have hvY : t <+: Y :=
                @prefix_cancel_left (c :: X') t Y (ht ▸ h')
              exact hns (c :: X') t ht (by simp) htn ⟨List.suffix_rfl, hvY⟩
    rw [List.cons_append]
    show (if pat.isPrefixOf (c :: (X' ++ Y)) then 1 else 0) + countOccs pat (X' ++ Y) =
      (if pat.isPrefixOf (c :: X') then 1 else 0) + countOccs pat X' + countOccs pat Y
    rw [hkey, ih Y hns', Nat.add_assoc]

/-! ## Whitespace-stripping lemmas -/

theorem dropWhile_eq_nil_of_all {p : Char → Bool} {l : List Char}
    (h : ∀ c ∈ l, p c = true) : l.dropWhile p = [] := by
  induction l with
  | nil => rfl
  | cons c cs ih =>
    rw [List.dropWhile_cons, if_pos (h c (List.mem_cons_self c cs))]
    exact ih (fun x hx => h x (List.mem_cons_of_mem c hx))

theorem pyStrip_allspace {s : List Char} (h : ∀ c ∈ s, isPySpace c = true) :
    pyStrip s = [] := by
  have hr : pyRstrip s = [] := by
    unfold pyRstrip
    rw [dropWhile_eq_nil_of_all (fun c hc => h c (List.mem_reverse.mp hc))]
    rfl
  unfold pyStrip
  rw [hr]
  rfl

theorem pyLstrip_cons_of_nonspace {c : Char} {t : List Char} (h : isPySpace c = false) :
    pyLstrip (c :: t) = c :: t := by
  unfold pyLstrip
  rw [List.dropWhile_cons, h]
  simp

theorem pyLstrip_fixed_head {c : Char} {t : List Char} (h : pyLstrip (c :: t) = c :: t) :
    isPySpace c = false := by
  cases hc : isPySpace c with
  | false => rfl
  | true =>
    exfalso
    unfold pyLstrip at h
    rw [List.dropWhile_cons, hc] at h
    simp only [if_pos rfl] at h
    have := congrArg List.length h
    have hle : (t.dropWhile isPySpace).length ≤ t.length :=
      List.IsSuffix.length_le (List.dropWhile_suffix isPySpace)
    simp at this
    omega

theorem pyLstrip_replicate_space_append (k : Nat) (x : List Char) :
    pyLstrip (List.replicate k ' ' ++ x) = pyLstrip x := by
  unfold pyLstrip
  rw [List.dropWhile_append_of_pos]
  intro a ha
  rw [List.eq_of_mem_replicate ha]
  rfl

/-! ## Claim C3: resolver label-before-title priority (concrete) -/

/-- Claim C3: for the task list `[{title:"[PR-7] Fix", labels:[]},
{title:"other", labels:[{title:"pr-7"}]}]` and hint `pr_number="7"`,
`find_task_by_matching` returns the second task (the label match), never the
first (the `[PR-7]` title match), because the whole list is scanned for a
label match before any title scan begins. -/
theorem resolver_label_priority_concrete :
    find_task_by_matching
        [⟨"[PR-7] Fix".data, [], []⟩, ⟨"other".data, [], [⟨"pr-7".data⟩]⟩]
        (some ("7".data)) none none =
      some ⟨"other".data, [], [⟨"pr-7".data⟩]⟩ ∧
    find_task_by_matching
        [⟨"[PR-7] Fix".data, [], []⟩, ⟨"other".data, [], [⟨"pr-7".data⟩]⟩]
        (some ("7".data)) none none ≠
      some ⟨"[PR-7] Fix".data, [], []⟩ := by
  constructor
  · decide
  · decide

/-! ## Claim C4: escaping safety -/

/-- Claim C4: `format_html_block("<script>a & b")` escapes the text before
any markup is added, so the output is exactly
`<p>&lt;script&gt;a &amp; b</p>` and contains no unescaped `<script>`
substring. -/
theorem format_html_block_escapes_script :
    format_html_block ("<script>a & b".data) = "<p>&lt;script&gt;a &amp; b</p>".data ∧
    ¬ ("<script>".data <:+: format_html_block ("<script>a & b".data)) := by
  constructor
  · decide
  · decide

/-! ## Claim C6: unmanaged descriptions are never auto-edited -/

/-- Claim C6: `is_managed(description)` holds iff the literal managed marker
occurs in the description, and the `cmd_progress_update` slice sends the
description back byte-for-byte unchanged whenever `is_managed` is false (the
merge is applied only when it is true). -/
theorem is_managed_gates_description_update (d today progress : List Char)
    (summaryArg : Option (List Char)) :
    (is_managed d = true ↔ MANAGED_MARKER <:+: d) ∧
    (is_managed d = false → progress_update_description d today summaryArg progress = d) := by
  refine ⟨containsB_iff MANAGED_MARKER d, fun h => ?_⟩
  simp [progress_update_description, h]

/-- Witness for C6 at a concrete unmanaged description. -/
theorem is_managed_gates_description_update_witness :
    is_managed ("plain human text".data) = false ∧
    progress_update_description ("plain human text".data) ("2026-10-12".data) none
        ("1/2 (50%)".data) = "plain human text".data :=
  ⟨by decide,
    (is_managed_gates_description_update ("plain human text".data) ("2026-10-12".data)
      ("1/2 (50%)".data) none).2 (by decide)⟩

/-! ## Claim C8: empty-input placeholder -/

/-- Claim C8 (counterexample to the claim as stated): the placeholder
character emitted by `format_html_block` for empty input is U+2013 (en dash),
not the em dash U+2014 the claim names. -/
theorem format_html_block_placeholder_en_dash :
    format_html_block [] = "<p>".data ++ ['–'] ++ "</p>".data ∧
    format_html_block [] ≠ "<p>".data ++ ['—'] ++ "</p>".data := by
  constructor
  · decide
  · decide

/-- Claim C8 (amended): for every input that is empty or consists only of
whitespace, `format_html_block` returns the fixed placeholder paragraph
`<p>–</p>`, whose content is the single en-dash character U+2013. -/
theorem format_html_block_whitespace_placeholder (s : List Char)
    (h : ∀ c ∈ s, isPySpace c = true) :
    format_html_block s = "<p>".data ++ ['–'] ++ "</p>".data := by
  have hs : pyStrip s = [] := pyStrip_allspace h
  simp [format_html_block, hs]

/-- Witness for C8 at a concrete whitespace-only input. -/
theorem format_html_block_whitespace_placeholder_witness :
    (∀ c ∈ ("  \t\n ".data), isPySpace c = true) ∧
    format_html_block ("  \t\n ".data) = "<p>".data ++ ['–'] ++ "</p>".data :=
  ⟨by decide, format_html_block_whitespace_placeholder ("  \t\n ".data) (by decide)⟩

/-! ## Claim C9: bullet stripping -/

theorem expandTabs_replicate_space (k : Nat) :
    expandTabs (List.replicate k ' ') = List.replicate k ' ' := by
  induction k with
  | zero => rfl
  | succ n ih =>
    rw [List.replicate_succ]
    unfold expandTabs at ih ⊢
    rw [List.flatMap_cons, ih]
    rfl

/-- Claim C9 (counterexample to the claim as stated): the renderer strips the
bullet marker together with ALL following whitespace, so `"-   text"` renders
with item content `text`, not `  text` as one-space stripping would give. -/
theorem render_list_bullet_claim_false :
    _render_list ["-   text".data] = "<ul><li>text</li></ul>".data ∧
    _render_list ["-   text".data] ≠ "<ul><li>  text</li></ul>".data := by
  constructor
  · decide
  · decide

theorem render_nested_single (X : List Char) :
    _render_nested_list [(0, X)] =
      "<ul><li>".data ++ escape_html X ++ "</li></ul>".data := rfl

/-- Claim C9 (amended): for a list line the renderer strips the leading
bullet marker together with ALL following whitespace (Python `lstrip`), so a
list item written with extra spaces after the marker does not keep them: the
rendered item content starts directly at the first non-whitespace character. -/
theorem render_list_strips_all_space_after_bullet (k : Nat) (t : List Char)
    (ht : pyLstrip t = t) :
    _render_list [('-' :: (List.replicate k ' ' ++ t))] =
      "<ul><li>".data ++ escape_html (_apply_checkbox (expandTabs t)) ++ "</li></ul>".data := by
  have hexp : expandTabs ('-' :: (List.replicate k ' ' ++ t)) =
      '-' :: (List.replicate k ' ' ++ expandTabs t) := by
    unfold expandTabs
    rw [List.flatMap_cons, List.flatMap_append]
    rw [show ((List.replicate k ' ').flatMap fun c => if c = '\t' then "  ".data else [c]) =
      List.replicate k ' ' from expandTabs_replicate_space k]
    rfl
  have hlt : pyLstrip (expandTabs t) = expandTabs t := by
    cases t with
    | nil => rfl
    | cons c ts =>
      have hc := pyLstrip_fixed_head ht
      have hct : c ≠ '\t' := by
        intro h
        rw [h] at hc
        simp [isPySpace] at hc
      have he : expandTabs (c :: ts) = c :: expandTabs ts := by
        simp [expandTabs, hct]
      rw [he]
      exact pyLstrip_cons_of_nonspace hc
  have hplE : pyLstrip ('-' :: (List.replicate k ' ' ++ expandTabs t)) =
      '-' :: (List.replicate k ' ' ++ expandTabs t) :=
    pyLstrip_cons_of_nonspace rfl
  have hlead : leadCount ('-' :: (List.replicate k ' ' ++ expandTabs t)) = 0 := by
    simp [leadCount, List.dropWhile_cons]
  have hitems : _render_list_items [('-' :: (List.replicate k ' ' ++ t))] =
      [(0, _apply_checkbox (expandTabs t))] := by
    unfold _render_list_items
    simp only [List.map_cons, List.map_nil, hexp, hlead, hplE, List.foldl_nil]
    rw [List.drop_one]
    have hpre1 : ['-'].isPrefixOf ('-' :: (List.replicate k ' ' ++ expandTabs t)) = true := by
      simp [List.isPrefixOf_iff_prefix]
    rw [hpre1, Bool.true_or, if_pos rfl]
    rw [List.tail_cons, pyLstrip_replicate_space_append, hlt]
    norm_num
  unfold _render_list
  rw [hitems]
  exact render_nested_single _

/-- Witness for C9 at `k = 3`, `t = "text"`. -/
theorem render_list_strips_all_space_after_bullet_witness :
    pyLstrip ("text".data) = "text".data ∧
    _render_list [('-' :: (List.replicate 3 ' ' ++ "text".data))] =
      "<ul><li>".data ++ escape_html (_apply_checkbox (expandTabs ("text".data))) ++
        "</li></ul>".data :=
  ⟨by decide, render_list_strips_all_space_after_bullet 3 ("text".data) (by decide)⟩

/-! ## Claim C2: resolver hint precedence -/

/-- Claim C2 (counterexample to the claim as stated): the branch rule is a
plain `if`, not an `else if` — with `pr_number` given and no pr-label or
`[PR-...]` title match, the resolver still consults the branch hint and
returns the branch-marker match instead of "no match". -/
theorem resolver_branch_claim_false :
    find_task_by_matching [⟨"x [branch:b]".data, [], []⟩]
        (some ("7".data)) (some ("b".data)) none =
      some ⟨"x [branch:b]".data, [], []⟩ ∧
    find_task_by_matching [⟨"x [branch:b]".data, [], []⟩]
        (some ("7".data)) (some ("b".data)) none ≠ none := by
  constructor
  · decide
  · decide

/-- Claim C2 (amended): the resolver's rules are evaluated top to bottom with
first match wins, but the branch rule is a plain `if`: when `pr_number` is
given and neither the pr-label scan nor the `[PR-...]` title-prefix scan
matches, the branch hint (when given) is consulted next, and the title rule
is skipped whenever `pr_number` (or `branch`) is given.  Only when the
branch hint is also absent or unmatched does the resolver return no match. -/
theorem resolver_branch_after_pr_fallthrough
    (tasks : List VTask) (pr_number branch title : Option (List Char))
    (hpr : truthyOpt pr_number = true)
    (hlab : ∀ t ∈ tasks, task_matches_label t ("pr-".data ++ pr_number.getD []) = false)
    (hpre : ∀ t ∈ tasks,
      ("[PR-".data ++ pr_number.getD [] ++ "]".data).isPrefixOf t.title = false) :
    find_task_by_matching tasks pr_number branch title =
      (if truthyOpt branch then
        tasks.find? (fun t =>
          containsB ("[branch:".data ++ branch.getD [] ++ "]".data) t.title ||
          containsB ("[branch:".data ++ branch.getD [] ++ "]".data) t.description)
      else none) := by
  have h1 : tasks.find? (fun t => task_matches_label t ("pr-".data ++ pr_number.getD [])) =
      none := List.find?_eq_none.mpr (fun x hx => by rw [hlab x hx]; simp)
  have h2 : tasks.find? (fun t =>
      ("[PR-".data ++ pr_number.getD [] ++ "]".data).isPrefixOf t.title) = none :=
    List.find?_eq_none.mpr (fun x hx => by rw [hpre x hx]; simp)
  unfold find_task_by_matching
  simp only [hpr, h1, h2, eq_self_iff_true, if_true]
  cases hb : truthyOpt branch with
  | true =>
    simp only [hb, eq_self_iff_true, if_true, Bool.not_true, Bool.and_false]
    split
    next t heq => exact heq.symm
    next heq => rw [heq]; simp
  | false =>
    simp only [hb, Bool.not_true, Bool.and_false, Bool.false_and]
    simp

/-- Witness for C2 at a concrete task list where only the branch marker
matches. -/
theorem resolver_branch_after_pr_fallthrough_witness :
    truthyOpt (some ("7".data)) = true ∧
    (∀ t ∈ [(⟨"x [branch:b]".data, [], []⟩ : VTask)],
      task_matches_label t ("pr-".data ++ (some ("7".data)).getD []) = false) ∧
    (∀ t ∈ [(⟨"x [branch:b]".data, [], []⟩ : VTask)],
      ("[PR-".data ++ (some ("7".data)).getD [] ++ "]".data).isPrefixOf t.title = false) ∧
    find_task_by_matching [⟨"x [branch:b]".data, [], []⟩]
        (some ("7".data)) (some ("b".data)) none =
      (if truthyOpt (some ("b".data)) then
        [(⟨"x [branch:b]".data, [], []⟩ : VTask)].find? (fun t =>
          containsB ("[branch:".data ++ (some ("b".data)).getD [] ++ "]".data) t.title ||
          containsB ("[branch:".data ++ (some ("b".data)).getD [] ++ "]".data) t.description)
      else none) :=
  ⟨by decide, by decide, by decide,
    resolver_branch_after_pr_fallthrough [⟨"x [branch:b]".data, [], []⟩]
      (some ("7".data)) (some ("b".data)) none (by decide) (by decide) (by decide)⟩

/-! ## Claim C7: configuration precedence -/

/-- Claim C7 (counterexample to the claim as stated): with the flag and the
environment variable absent but the rc file defining the variable, `get_env`
returns the non-empty hard-coded default, not the rc-file value — a truthy
`os.environ.get(name, default)` short-circuits before the rc file is ever
loaded. -/
theorem get_env_rc_claim_false :
    get_env [] ["export VIKUNJA_PROJECT_NAME=FromRc".data]
        ("VIKUNJA_PROJECT_NAME".data) (some ("Internal TODO".data)) false =
      some ("Internal TODO".data) ∧
    get_env [] ["export VIKUNJA_PROJECT_NAME=FromRc".data]
        ("VIKUNJA_PROJECT_NAME".data) (some ("Internal TODO".data)) false ≠
      some ("FromRc".data) := by
  constructor
  · decide
  · decide

/-- Claim C7 (amended): `get_env`'s precedence is environment variable >
non-empty default argument > rc-file value: when the environment variable is
absent, a non-empty default is returned without consulting the rc file, and
the rc-file value is used only when the default is also absent or empty.
(The explicit command-line flag is checked by the callers before `get_env`
is invoked at all.) -/
theorem get_env_default_beats_rc (env : EnvMap) (rc : List (List Char))
    (name d v : List Char) (habs : environGet env name = none) :
    (d ≠ [] → get_env env rc name (some d) false = some d) ∧
    (environGet (load_zshrc_env env rc) name = some v →
      get_env env rc name none false = some v) := by
  constructor
  · intro hd
    simp [get_env, habs, truthyOpt, List.isEmpty_iff, hd]
  · intro hv
    simp [get_env, habs, truthyOpt, hv]

/-- Witness for C7: the default wins over an rc value for one name, and the
rc value is used when no default is given. -/
theorem get_env_default_beats_rc_witness :
    environGet [] ("VIKUNJA_BASE_URL".data) = none ∧
    ("Internal TODO".data ≠ ([] : List Char) →
      get_env [] ["export VIKUNJA_BASE_URL=https://example.test".data]
        ("VIKUNJA_BASE_URL".data) (some ("Internal TODO".data)) false =
      some ("Internal TODO".data)) ∧
    (environGet (load_zshrc_env [] ["export VIKUNJA_BASE_URL=https://example.test".data])
        ("VIKUNJA_BASE_URL".data) = some ("https://example.test".data) →
      get_env [] ["export VIKUNJA_BASE_URL=https://example.test".data]
        ("VIKUNJA_BASE_URL".data) none false = some ("https://example.test".data)) :=
  ⟨rfl,
    (get_env_default_beats_rc [] ["export VIKUNJA_BASE_URL=https://example.test".data]
      ("VIKUNJA_BASE_URL".data) ("Internal TODO".data) ("https://example.test".data) rfl).1,
    (get_env_default_beats_rc [] ["export VIKUNJA_BASE_URL=https://example.test".data]
      ("VIKUNJA_BASE_URL".data) ("Internal TODO".data) ("https://example.test".data) rfl).2⟩

/-! ## Claim C10: ensure-task always creates managed descriptions -/

theorem pyReplaceAux_zero (pat v s : List Char) : pyReplaceAux pat v 0 s = s := by
  cases s <;> rfl

theorem prefix_pyReplaceAux (pat v : List Char) (hp : Char)
    (hpath : pat.head? = some hp) :
    ∀ (fuel : Nat) (m s : List Char), m <+: s → hp ∉ m →
      m <+: pyReplaceAux pat v fuel s := by
  intro fuel
  induction fuel with
  | zero => intro m s hm _; rw [pyReplaceAux_zero]; exact hm
  | succ n ih =>
    intro m s hm hhp
    cases s with
    | nil =>
      rw [List.prefix_nil.mp hm]
      exact List.nil_prefix
    | cons c cs =>
      by_cases hmatch : pat.isPrefixOf (c :: cs) = true
      · have hmnil : m = [] := by
          cases m with
          | nil => rfl
          | cons b m' =>
            exfalso
            have hbc : b = c := (List.cons_prefix_cons.mp hm).1
            have hpc : hp = c := by
              have hpp : pat <+: c :: cs := List.isPrefixOf_iff_prefix.mp hmatch
              cases pat with
              | nil => exact absurd hpath (by simp)
              | cons a as =>
                have := (List.cons_prefix_cons.mp hpp).1
                have ha : a = hp := by simpa [List.head?] using hpath
                rw [← ha, this]
            exact hhp (by rw [hpc, ← hbc]; exact List.mem_cons_self b m')
        rw [hmnil]
        exact List.nil_prefix
      · show m <+: pyReplaceAux pat v (n + 1) (c :: cs)
        rw [show pyReplaceAux pat v (n + 1) (c :: cs) = c :: pyReplaceAux pat v n cs from by
          simp [pyReplaceAux, hmatch]]
        cases m with
        | nil => exact List.nil_prefix
        | cons b m' =>
          have hbc : b = c := (List.cons_prefix_cons.mp hm).1
          have hm' : m' <+: cs := (List.cons_prefix_cons.mp hm).2
          have hhp' : hp ∉ m' := fun h => hhp (List.mem_cons_of_mem b h)
          exact List.cons_prefix_cons.mpr ⟨hbc, ih m' cs hm' hhp'⟩

theorem infix_drop_of_not_mem (m : List Char) (hm : Char) (hmh : m.head? = some hm) :
    ∀ (p s : List Char), p <+: s → m <:+: s → hm ∉ p →
      m <:+: s.drop p.length := by
  intro p
  induction p with
  | nil => intro s _ hinf _; simpa using hinf
  | cons a p' ih =>
    intro s hp hinf hhm
    cases s with
    | nil => exact absurd hp (by simp)
    | cons c cs =>
      have hac : a = c := (List.cons_prefix_cons.mp hp).1
      have hp' : p' <+: cs := (List.cons_prefix_cons.mp hp).2
      rcases List.infix_cons_iff.mp hinf with hpre | htail
      · exfalso
        cases m with
        | nil => exact Option.noConfusion hmh
        | cons b m' =>
          have hb : b = hm := by simpa [List.head?] using hmh
          have hbc : b = c := (List.cons_prefix_cons.mp hpre).1
          have hma : hm = a := by rw [← hb, hbc, hac]
          exact hhm (by rw [hma]; exact List.mem_cons_self a p')
      · have := ih cs hp' htail (fun h => hhm (List.mem_cons_of_mem a h))
        simpa using this

theorem infix_pyReplaceAux (pat v : List Char) (marker : List Char) (hp hm : Char)
    (hpath : pat.head? = some hp) (hmh : marker.head? = some hm)
    (hpm : hp ∉ marker) (hmp : hm ∉ pat) :
    ∀ (fuel : Nat) (s : List Char), marker <:+: s →
      marker <:+: pyReplaceAux pat v fuel s := by
  intro fuel
  induction fuel with
  | zero => intro s h; rw [pyReplaceAux_zero]; exact h
  | succ n ih =>
    intro s hinf
    cases s with
    | nil =>
      exfalso
      have := List.infix_nil.mp hinf
      rw [this] at hmh
      exact Option.noConfusion hmh
    | cons c cs =>
      by_cases hmatch : pat.isPrefixOf (c :: cs) = true
      · rw [show pyReplaceAux pat v (n + 1) (c :: cs) =
            v ++ pyReplaceAux pat v n (cs.drop (pat.length - 1)) from by
          simp [pyReplaceAux, hmatch]]
        have hpp : pat <+: c :: cs := List.isPrefixOf_iff_prefix.mp hmatch
        have hdrop : marker <:+: (c :: cs).drop pat.length :=
          infix_drop_of_not_mem marker hm hmh pat (c :: cs) hpp hinf hmp
        have hlen : (c :: cs).drop pat.length = cs.drop (pat.length - 1) := by
          cases hpat : pat with
          | nil => rw [hpat] at hpath; exact absurd hpath (by simp)
          | cons a as => simp
        rw [hlen] at hdrop
        have := ih (cs.drop (pat.length - 1)) hdrop
        exact List.IsInfix.trans this (List.IsSuffix.isInfix (List.suffix_append _ _))
      · rcases List.infix_cons_iff.mp hinf with hpre | htail
        · exact List.IsPrefix.isInfix
            (prefix_pyReplaceAux pat v hp hpath (n + 1) marker (c :: cs) hpre hpm)
        · rw [show pyReplaceAux pat v (n + 1) (c :: cs) = c :: pyReplaceAux pat v n cs from by
            simp [pyReplaceAux, hmatch]]
          exact List.infix_cons (ih cs htail)

theorem infix_pyReplace (pat v s marker : List Char) (hp hm : Char)
    (hpath : pat.head? = some hp) (hmh : marker.head? = some hm)
    (hpm : hp ∉ marker) (hmp : hm ∉ pat)
    (h : marker <:+: s) : marker <:+: pyReplace pat v s := by
  unfold pyReplace
  by_cases he : pat.isEmpty
  · rw [if_pos he]; exact h
  · rw [if_neg he]
    exact infix_pyReplaceAux pat v marker hp hm hpath hmh hpm hmp s.length s h

theorem marker_infix_render_template (values : List (List Char × List Char)) :
    ∀ (template : List Char), MANAGED_MARKER <:+: template →
    (∀ kv ∈ values, ('<' : Char) ∉ kv.1) →
    MANAGED_MARKER <:+: render_template template values := by
  induction values with
  | nil => intro template h _; exact h
  | cons kv rest ih =>
    intro template h hv
    show MANAGED_MARKER <:+: List.foldl _ (pyReplace ("\x7b\x7b".data ++ kv.1 ++ "\x7d\x7d".data) kv.2 template) rest
    apply ih
    · apply infix_pyReplace _ _ _ _ '\x7b' '<'
      · rfl
      · rfl
      · decide
      · intro hmem
        have h1 : ('<' : Char) ∈ kv.1 := by simpa using hmem
        exact hv kv (List.mem_cons_self kv rest) h1
      · exact h
    · intro x hx
      exact hv x (List.mem_cons_of_mem kv hx)

/-- Claim C10: every task created by ensure-task has a managed description —
when a user-supplied `--description` is given, the managed marker is
prepended (followed by a blank line) when absent and the description is
passed through unchanged when present; the template path (modelled from the
spec as a marker-bearing template) likewise always yields a marker-bearing
description, so freshly created tasks always satisfy `is_managed`. -/
theorem ensure_task_description_managed
    (descArg goal requirements solution definition pr_url pr_number : Option (List Char))
    (template today : List Char) (htempl : templateIsManaged template) :
    is_managed (cmd_ensure_task_description descArg goal requirements solution definition
      pr_url pr_number template today) = true ∧
    (∀ d : List Char, descArg = some d → d ≠ [] →
      (is_managed d = true →
        cmd_ensure_task_description descArg goal requirements solution definition
          pr_url pr_number template today = d) ∧
      (is_managed d = false →
        cmd_ensure_task_description descArg goal requirements solution definition
          pr_url pr_number template today = MANAGED_MARKER ++ "\n\n".data ++ d)) := by
  constructor
  · by_cases ht : truthyOpt descArg = true
    · rw [show cmd_ensure_task_description descArg goal requirements solution definition
          pr_url pr_number template today =
          (if containsB MANAGED_MARKER (descArg.getD []) then descArg.getD []
           else MANAGED_MARKER ++ "\n\n".data ++ descArg.getD []) from by
        unfold cmd_ensure_task_description; rw [if_pos ht]]
      by_cases hc : containsB MANAGED_MARKER (descArg.getD []) = true
      · rw [if_pos hc]
        exact hc
      · rw [if_neg (by simp [Bool.not_eq_true] at hc ⊢; exact hc)]
        apply (containsB_iff _ _).mpr
        exact List.IsPrefix.isInfix (List.prefix_append _ _)
    · rw [show cmd_ensure_task_description descArg goal requirements solution definition
          pr_url pr_number template today =
          render_template template
            [("goal_html".data, format_html_block (normalize_field goal)),
             ("requirements_html".data, format_html_block (normalize_field requirements)),
             ("solution_html".data, format_html_block (normalize_field solution)),
             ("definition_of_done_html".data, format_html_block (normalize_field definition)),
             ("pr_section_html".data,
               if truthyOpt pr_url || truthyOpt pr_number then
                 "<h3>PR</h3>\n".data ++ format_html_block
                   (if truthyOpt pr_url then pr_url.getD []
                    else "PR #".data ++ pr_number.getD [])
               else []),
             ("summary_html".data, escape_html ("Ej påbörjat".data)),
             ("progress".data, "0/0 (0%)".data),
             ("date".data, today)] from by
        unfold cmd_ensure_task_description; rw [if_neg ht]]
      apply (containsB_iff _ _).mpr
      apply marker_infix_render_template _ template htempl
      intro kv hkv
      simp only [List.mem_cons, List.not_mem_nil, or_false] at hkv
      rcases hkv with rfl | rfl | rfl | rfl | rfl | rfl | rfl | rfl <;> simp
  · intro d hd hdne
    have ht : truthyOpt descArg = true := by
      rw [hd]
      simp [truthyOpt, List.isEmpty_iff, hdne]
    constructor
    · intro hman
      unfold cmd_ensure_task_description
      rw [if_pos ht, hd]
      simp only [Option.getD_some]
      rw [if_pos (by exact hman)]
    · intro hman
      unfold cmd_ensure_task_description
      rw [if_pos ht, hd]
      simp only [Option.getD_some]
      rw [if_neg (by rw [Bool.not_eq_true]; exact hman)]

/-- Witness for C10: the template path on a concrete marker-bearing template,
and the marker-prepending path on a concrete unmanaged description. -/
theorem ensure_task_description_managed_witness :
    templateIsManaged (MANAGED_MARKER ++ "\n\n<h3>Mål</h3>\n\x7b\x7bgoal_html\x7d\x7d\n".data) ∧
    is_managed (cmd_ensure_task_description none (some ("build the thing".data)) none none none
      none none (MANAGED_MARKER ++ "\n\n<h3>Mål</h3>\n\x7b\x7bgoal_html\x7d\x7d\n".data)
      ("2026-10-12".data)) = true ∧
    is_managed (cmd_ensure_task_description (some ("user text".data)) none none none none
      none none (MANAGED_MARKER ++ "\n\n<h3>Mål</h3>\n\x7b\x7bgoal_html\x7d\x7d\n".data)
      ("2026-10-12".data)) = true ∧
    cmd_ensure_task_description (some ("user text".data)) none none none none
      none none (MANAGED_MARKER ++ "\n\n<h3>Mål</h3>\n\x7b\x7bgoal_html\x7d\x7d\n".data)
      ("2026-10-12".data) = MANAGED_MARKER ++ "\n\n".data ++ "user text".data :=
  ⟨by decide,
    (ensure_task_description_managed none (some ("build the thing".data)) none none none
      none none _ ("2026-10-12".data) (by decide)).1,
    (ensure_task_description_managed (some ("user text".data)) none none none none
      none none _ ("2026-10-12".data) (by decide)).1,
    ((ensure_task_description_managed (some ("user text".data)) none none none none
      none none _ ("2026-10-12".data) (by decide)).2 ("user text".data) rfl
      (by decide)).2 (by decide)⟩

/-! ## Claim C5: list nesting well-formedness -/

/-- Number of `<ul>` opening tags among the emitted fragments. -/
def cUlO (ps : List (List Char)) : Nat := ps.countP (fun p => decide (p = ulOpenTag))

/-- Number of `</ul>` closing tags among the emitted fragments. -/
def cUlC (ps : List (List Char)) : Nat := ps.countP (fun p => decide (p = ulCloseTag))

/-- Number of `</li>` closing tags among the emitted fragments. -/
def cLiC (ps : List (List Char)) : Nat := ps.countP (fun p => decide (p = liCloseTag))

/-- Number of item-opening fragments (those starting with `<li>`). -/
def cLiO (ps : List (List Char)) : Nat := ps.countP (fun p => decide ("<li>".data <+: p))

/-- Number of `true` entries of the `open_li` stack. -/
def cTrue (bs : List Bool) : Nat := bs.countP (fun b => b)

/-- The item-opening fragment `"<li>" ++ content` is classified as an
item opener and as nothing else. -/
theorem liOpenPart_class (x : List Char) :
    ("<li>".data ++ x ≠ ulOpenTag) ∧ ("<li>".data ++ x ≠ ulCloseTag) ∧
    ("<li>".data ++ x ≠ liCloseTag) ∧ ("<li>".data <+: "<li>".data ++ x) := by
  refine ⟨?_, ?_, ?_, List.prefix_append _ _⟩
  · intro h
    have h2 := congrArg (List.take 2) h
    rw [show List.take 2 ("<li>".data ++ x) = ['<', 'l'] from rfl] at h2
    exact absurd h2 (by decide)
  · intro h
    have h2 := congrArg (List.take 2) h
    rw [show List.take 2 ("<li>".data ++ x) = ['<', 'l'] from rfl] at h2
    exact absurd h2 (by decide)
  · intro h
    have h2 := congrArg (List.take 2) h
    rw [show List.take 2 ("<li>".data ++ x) = ['<', 'l'] from rfl] at h2
    exact absurd h2 (by decide)

theorem cUlO_append (ps qs : List (List Char)) : cUlO (ps ++ qs) = cUlO ps + cUlO qs :=
  List.countP_append _ _ _

theorem cUlC_append (ps qs : List (List Char)) : cUlC (ps ++ qs) = cUlC ps + cUlC qs :=
  List.countP_append _ _ _

theorem cLiC_append (ps qs : List (List Char)) : cLiC (ps ++ qs) = cLiC ps + cLiC qs :=
  List.countP_append _ _ _

theorem cLiO_append (ps qs : List (List Char)) : cLiO (ps ++ qs) = cLiO ps + cLiO qs :=
  List.countP_append _ _ _

/-- Strictly-positive `<ul>` depth on every non-empty prefix of the fragment
list: the single top-level list element is still open. -/
def PfxUl (ps : List (List Char)) : Prop :=
  ∀ n, n < ps.length → cUlC (ps.take (n+1)) < cUlO (ps.take (n+1))

/-- On every prefix, at most as many `</li>` closers as item openers. -/
def PfxLi (ps : List (List Char)) : Prop :=
  ∀ n, cLiC (ps.take n) ≤ cLiO (ps.take n)

theorem take_append_singleton_of_le {α : Type} {ps : List α} {p : α} {n : Nat}
    (h : n ≤ ps.length) : (ps ++ [p]).take n = ps.take n := by
  rw [List.take_append_eq_append_take, Nat.sub_eq_zero_of_le h, List.take_zero,
    List.append_nil]

theorem pfxUl_append {ps : List (List Char)} {p : List Char} (h : PfxUl ps)
    (hnew : cUlC (ps ++ [p]) < cUlO (ps ++ [p])) : PfxUl (ps ++ [p]) := by
  intro n hn
  rcases Nat.lt_or_ge n ps.length with hlt | hge
  · rw [take_append_singleton_of_le (by omega)]
    exact h n hlt
  · have hn' : n = ps.length := by
      rw [List.length_append, List.length_singleton] at hn
      omega
    rw [hn', List.take_append_eq_append_take, List.take_of_length_le (by omega),
      List.take_of_length_le (by simp)]
    simpa using hnew

theorem pfxLi_append {ps : List (List Char)} {p : List Char} (h : PfxLi ps)
    (hnew : cLiC (ps ++ [p]) ≤ cLiO (ps ++ [p])) : PfxLi (ps ++ [p]) := by
  intro n
  rcases Nat.lt_or_ge n (ps.length + 1) with hlt | hge
  · rcases Nat.lt_or_ge n (ps.length) with hlt2 | hge2
    · rw [take_append_singleton_of_le (by omega)]
      exact h n
    · have hn' : n = ps.length := by omega
      rw [hn', take_append_singleton_of_le (by omega), List.take_of_length_le (by omega)]
      have := h ps.length
      rwa [List.take_length] at this
  · rw [List.take_of_length_le (by simp; omega)]
    exact hnew

theorem head?_append_singleton {α : Type} {ps : List α} {u p : α}
    (h : ps.head? = some u) : (ps ++ [p]).head? = some u := by
  cases ps with
  | nil => exact Option.noConfusion h
  | cons a rest => simpa using h

/-- The loop invariant of `_render_nested_list`. -/
def stInv (st : NLState) : Prop :=
  st.open_li.length = st.current_level + 1 ∧
  cUlO st.parts = cUlC st.parts + st.current_level + 1 ∧
  cLiO st.parts = cLiC st.parts + cTrue st.open_li ∧
  PfxUl st.parts ∧
  PfxLi st.parts ∧
  st.parts.head? = some ulOpenTag

theorem counts_li_part (x : List Char) :
    cUlO ["<li>".data ++ x] = 0 ∧ cUlC ["<li>".data ++ x] = 0 ∧
    cLiC ["<li>".data ++ x] = 0 ∧ cLiO ["<li>".data ++ x] = 1 := by
  obtain ⟨h1, h2, h3, h4⟩ := liOpenPart_class x
  simp only [List.cons_append, List.nil_append] at h1 h2 h3 h4 ⊢
  refine ⟨?_, ?_, ?_, ?_⟩ <;>
    simp [cUlO, cUlC, cLiC, cLiO, List.countP_cons, h1, h2, h3, h4]

theorem getD_eq_getElem_of_lt {l : List Bool} {i : Nat} (h : i < l.length) :
    l.getD i false = l[i] := by
  simp [List.getD_eq_getElem?_getD, List.getElem?_eq_getElem h]

theorem cTrue_set_true {l : List Bool} {i : Nat} (h : i < l.length)
    (hg : l.getD i false = false) : cTrue (l.set i true) = cTrue l + 1 := by
  have hgi : l[i] = false := by rw [← getD_eq_getElem_of_lt h]; exact hg
  unfold cTrue
  rw [List.countP_set _ _ _ _ h, hgi]
  simp

theorem cTrue_set_false {l : List Bool} {i : Nat} (h : i < l.length)
    (hg : l.getD i false = true) : cTrue (l.set i false) + 1 = cTrue l := by
  have hgi : l[i] = true := by rw [← getD_eq_getElem_of_lt h]; exact hg
  have hb : (if (fun b => b) l[i] then 1 else 0) ≤ l.countP (fun b => b) :=
    List.boole_getElem_le_countP (fun b => b) l i h
  rw [hgi] at hb
  have hb2 : 1 ≤ l.countP (fun b => b) := by simpa using hb
  unfold cTrue
  rw [List.countP_set _ _ _ _ h, hgi]
  norm_num
  omega

theorem cTrue_dropLast_of_last_false {l : List Bool} (hne : l ≠ [])
    (hg : l.getD (l.length - 1) false = false) : cTrue l.dropLast = cTrue l := by
  conv_rhs => rw [← List.dropLast_concat_getLast hne]
  unfold cTrue
  rw [List.countP_append]
  have hlt : l.length - 1 < l.length := by
    have := List.length_pos.mpr hne
    omega
  rw [getD_eq_getElem_of_lt hlt] at hg
  rw [List.getLast_eq_getElem]
  simp [hg]

theorem cTrue_dropLast_of_last_true {l : List Bool} (hne : l ≠ [])
    (hg : l.getD (l.length - 1) false = true) : cTrue l.dropLast + 1 = cTrue l := by
  conv_rhs => rw [← List.dropLast_concat_getLast hne]
  unfold cTrue
  rw [List.countP_append]
  have hlt : l.length - 1 < l.length := by
    have := List.length_pos.mpr hne
    omega
  rw [getD_eq_getElem_of_lt hlt] at hg
  rw [List.getLast_eq_getElem]
  simp [hg]

theorem stInv_riseN : ∀ (n : Nat) (st : NLState), stInv st → stInv (riseN n st) := by
  intro n
  induction n with
  | zero => intro st h; exact h
  | succ m ih =>
    intro st h
    obtain ⟨hlen, hul, hli, hpu, hpl, hhd⟩ := h
    show stInv (riseN m ⟨st.parts ++ [ulOpenTag], st.current_level + 1, st.open_li ++ [false]⟩)
    apply ih
    refine ⟨?_, ?_, ?_, ?_, ?_, ?_⟩
    · simp [hlen]
    · show cUlO (st.parts ++ [ulOpenTag]) =
        cUlC (st.parts ++ [ulOpenTag]) + (st.current_level + 1) + 1
      rw [cUlO_append, cUlC_append]
      have e1 : cUlO [ulOpenTag] = 1 := by decide
      have e2 : cUlC [ulOpenTag] = 0 := by decide
      omega
    · show cLiO (st.parts ++ [ulOpenTag]) =
        cLiC (st.parts ++ [ulOpenTag]) + cTrue (st.open_li ++ [false])
      rw [cLiO_append, cLiC_append]
      have e1 : cLiO [ulOpenTag] = 0 := by decide
      have e2 : cLiC [ulOpenTag] = 0 := by decide
      have e3 : cTrue (st.open_li ++ [false]) = cTrue st.open_li := by
        unfold cTrue
        rw [List.countP_append]
        simp
      omega
    · apply pfxUl_append hpu
      rw [cUlO_append, cUlC_append]
      have e1 : cUlO [ulOpenTag] = 1 := by decide
      have e2 : cUlC [ulOpenTag] = 0 := by decide
      omega
    · apply pfxLi_append hpl
      rw [cLiO_append, cLiC_append]
      have e1 : cLiO [ulOpenTag] = 0 := by decide
      have e2 : cLiC [ulOpenTag] = 0 := by decide
      omega
    · exact head?_append_singleton hhd

theorem closeLiAt_level (st : NLState) : (closeLiAt st).current_level = st.current_level := by
  unfold closeLiAt
  split <;> rfl

theorem closeLiAt_last (st : NLState) (hlen : st.open_li.length = st.current_level + 1) :
    (closeLiAt st).open_li.getD ((closeLiAt st).current_level) false = false := by
  rw [closeLiAt_level]
  unfold closeLiAt
  split
  · show (st.open_li.set st.current_level false).getD st.current_level false = false
    have hlt : st.current_level < st.open_li.length := by omega
    rw [getD_eq_getElem_of_lt (by simpa using hlt)]
    simp
  · next hg =>
    simpa using (Bool.not_eq_true _).mp hg

theorem stInv_closeLiAt (st : NLState) (h : stInv st) : stInv (closeLiAt st) := by
  obtain ⟨hlen, hul, hli, hpu, hpl, hhd⟩ := h
  unfold closeLiAt
  split
  · next hg =>
    have hlt : st.current_level < st.open_li.length := by omega
    refine ⟨by simp [hlen], ?_, ?_, ?_, ?_, ?_⟩
    · show cUlO (st.parts ++ [liCloseTag]) =
        cUlC (st.parts ++ [liCloseTag]) + st.current_level + 1
      rw [cUlO_append, cUlC_append]
      have e1 : cUlO [liCloseTag] = 0 := by decide
      have e2 : cUlC [liCloseTag] = 0 := by decide
      omega
    · show cLiO (st.parts ++ [liCloseTag]) =
        cLiC (st.parts ++ [liCloseTag]) + cTrue (st.open_li.set st.current_level false)
      rw [cLiO_append, cLiC_append]
      have e1 : cLiO [liCloseTag] = 0 := by decide
      have e2 : cLiC [liCloseTag] = 1 := by decide
      have e3 := cTrue_set_false hlt hg
      omega
    · apply pfxUl_append hpu
      rw [cUlO_append, cUlC_append]
      have e1 : cUlO [liCloseTag] = 0 := by decide
      have e2 : cUlC [liCloseTag] = 0 := by decide
      omega
    · apply pfxLi_append hpl
      rw [cLiO_append, cLiC_append]
      have e1 : cLiO [liCloseTag] = 0 := by decide
      have e2 : cLiC [liCloseTag] = 1 := by decide
      have e3 := cTrue_set_false hlt hg
      omega
    · exact head?_append_singleton hhd
  · exact ⟨hlen, hul, hli, hpu, hpl, hhd⟩

theorem one_le_cTrue_of_getD {l : List Bool} {i : Nat} (h : i < l.length)
    (hg : l.getD i false = true) : 1 ≤ cTrue l := by
  have hgi : l[i] = true := by rw [← getD_eq_getElem_of_lt h]; exact hg
  have hb : (if (fun b => b) l[i] then 1 else 0) ≤ l.countP (fun b => b) :=
    List.boole_getElem_le_countP (fun b => b) l i h
  rw [hgi] at hb
  simpa [cTrue] using hb

theorem riseN_level : ∀ (n : Nat) (st : NLState),
    (riseN n st).current_level = st.current_level + n := by
  intro n
  induction n with
  | zero => intro st; rfl
  | succ m ih =>
    intro st
    show (riseN m ⟨st.parts ++ [ulOpenTag], st.current_level + 1, st.open_li ++ [false]⟩).current_level = _
    rw [ih]
    show st.current_level + 1 + m = st.current_level + (m + 1)
    omega

theorem fallN_level : ∀ (n : Nat) (st : NLState),
    (fallN n st).current_level = st.current_level - n := by
  intro n
  induction n with
  | zero => intro st; rfl
  | succ m ih =>
    intro st
    show (fallN m ⟨(closeLiAt st).parts ++ [ulCloseTag],
      (closeLiAt st).current_level - 1, (closeLiAt st).open_li.dropLast⟩).current_level = _
    rw [ih]
    simp only [closeLiAt_level]
    omega

theorem stInv_fallN : ∀ (n : Nat) (st : NLState), n ≤ st.current_level → stInv st →
    stInv (fallN n st) := by
  intro n
  induction n with
  | zero => intro st _ h; exact h
  | succ m ih =>
    intro st hn h
    have hlen0 := h.1
    have h' := stInv_closeLiAt st h
    have hlev := closeLiAt_level st
    have hlast := closeLiAt_last st hlen0
    obtain ⟨hlen, hul, hli, hpu, hpl, hhd⟩ := h'
    show stInv (fallN m ⟨(closeLiAt st).parts ++ [ulCloseTag],
      (closeLiAt st).current_level - 1, (closeLiAt st).open_li.dropLast⟩)
    have hcur1 : 1 ≤ (closeLiAt st).current_level := by omega
    apply ih
    · show m ≤ (closeLiAt st).current_level - 1
      omega
    · have hne : (closeLiAt st).open_li ≠ [] := by
        intro hnil
        rw [hnil] at hlen
        simp at hlen
      have hidx : (closeLiAt st).open_li.length - 1 = (closeLiAt st).current_level := by
        omega
      have hlast' : (closeLiAt st).open_li.getD ((closeLiAt st).open_li.length - 1) false =
          false := by
        rw [hidx]
        exact hlast
      have e3 := cTrue_dropLast_of_last_false hne hlast'
      refine ⟨?_, ?_, ?_, ?_, ?_, ?_⟩
      · show (closeLiAt st).open_li.dropLast.length = (closeLiAt st).current_level - 1 + 1
        rw [List.length_dropLast, hlen]
        omega
      · show cUlO ((closeLiAt st).parts ++ [ulCloseTag]) =
          cUlC ((closeLiAt st).parts ++ [ulCloseTag]) + ((closeLiAt st).current_level - 1) + 1
        rw [cUlO_append, cUlC_append]
        have e1 : cUlO [ulCloseTag] = 0 := by decide
        have e2 : cUlC [ulCloseTag] = 1 := by decide
        omega
      · show cLiO ((closeLiAt st).parts ++ [ulCloseTag]) =
          cLiC ((closeLiAt st).parts ++ [ulCloseTag]) + cTrue ((closeLiAt st).open_li.dropLast)
        rw [cLiO_append, cLiC_append]
        have e1 : cLiO [ulCloseTag] = 0 := by decide
        have e2 : cLiC [ulCloseTag] = 0 := by decide
        omega
      · apply pfxUl_append hpu
        rw [cUlO_append, cUlC_append]
        have e1 : cUlO [ulCloseTag] = 0 := by decide
        have e2 : cUlC [ulCloseTag] = 1 := by decide
        omega
      · apply pfxLi_append hpl
        rw [cLiO_append, cLiC_append]
        have e1 : cLiO [ulCloseTag] = 0 := by decide
        have e2 : cLiC [ulCloseTag] = 0 := by decide
        omega
      · exact head?_append_singleton hhd

theorem stInv_emit (st : NLState) (x : List Char) (h : stInv st) :
    stInv ⟨(closeLiAt st).parts ++ ["<li>".data ++ x],
      (closeLiAt st).current_level,
      (closeLiAt st).open_li.set ((closeLiAt st).current_level) true⟩ := by
  have hlen0 := h.1
  have h' := stInv_closeLiAt st h
  have hlast := closeLiAt_last st hlen0
  obtain ⟨hlen, hul, hli, hpu, hpl, hhd⟩ := h'
  obtain ⟨c1, c2, c3, c4⟩ := counts_li_part x
  have hlt : (closeLiAt st).current_level < (closeLiAt st).open_li.length := by omega
  have e3 := cTrue_set_true hlt hlast
  refine ⟨?_, ?_, ?_, ?_, ?_, ?_⟩
  · show ((closeLiAt st).open_li.set ((closeLiAt st).current_level) true).length =
      (closeLiAt st).current_level + 1
    rw [List.length_set]
    exact hlen
  · show cUlO ((closeLiAt st).parts ++ ["<li>".data ++ x]) =
      cUlC ((closeLiAt st).parts ++ ["<li>".data ++ x]) + (closeLiAt st).current_level + 1
    rw [cUlO_append, cUlC_append]
    omega
  · show cLiO ((closeLiAt st).parts ++ ["<li>".data ++ x]) =
      cLiC ((closeLiAt st).parts ++ ["<li>".data ++ x]) +
        cTrue ((closeLiAt st).open_li.set ((closeLiAt st).current_level) true)
    rw [cLiO_append, cLiC_append]
    omega
  · apply pfxUl_append hpu
    rw [cUlO_append, cUlC_append]
    omega
  · apply pfxLi_append hpl
    rw [cLiO_append, cLiC_append]
    omega
  · exact head?_append_singleton hhd

theorem stInv_nlStep (st : NLState) (item : Nat × List Char) (h : stInv st) :
    stInv (nlStep st item) := by
  have h1 : stInv (if st.current_level < item.1 then riseN (item.1 - st.current_level) st
      else if item.1 < st.current_level then fallN (st.current_level - item.1) st else st) := by
    split
    · exact stInv_riseN _ st h
    · split
      · exact stInv_fallN _ st (by omega) h
      · exact h
  exact stInv_emit _ (escape_html item.2) h1

theorem finishN_level : ∀ (n : Nat) (st : NLState),
    (finishN n st).current_level = st.current_level - n := by
  intro n
  induction n with
  | zero => intro st; rfl
  | succ m ih =>
    intro st
    show (finishN m ⟨(if st.open_li.getD st.current_level false then
        st.parts ++ [liCloseTag] else st.parts) ++ [ulCloseTag],
      st.current_level - 1, st.open_li.dropLast⟩).current_level = _
    rw [ih]
    show st.current_level - 1 - m = st.current_level - (m + 1)
    omega

theorem stInv_finishN : ∀ (n : Nat) (st : NLState), n ≤ st.current_level → stInv st →
    stInv (finishN n st) := by
  intro n
  induction n with
  | zero => intro st _ h; exact h
  | succ m ih =>
    intro st hn h
    obtain ⟨hlen, hul, hli, hpu, hpl, hhd⟩ := h
    have hcur1 : 1 ≤ st.current_level := by omega
    have hne : st.open_li ≠ [] := by
      intro hnil
      rw [hnil] at hlen
      simp at hlen
    have hidx : st.open_li.length - 1 = st.current_level := by omega
    show stInv (finishN m ⟨(if st.open_li.getD st.current_level false then
        st.parts ++ [liCloseTag] else st.parts) ++ [ulCloseTag],
      st.current_level - 1, st.open_li.dropLast⟩)
    apply ih
    · show m ≤ st.current_level - 1
      omega
    · cases hg : st.open_li.getD st.current_level false with
      | true =>
        have hlast' : st.open_li.getD (st.open_li.length - 1) false = true := by
          rw [hidx]; exact hg
        have e3 := cTrue_dropLast_of_last_true hne hlast'
        rw [if_pos rfl]
        have q1 : cUlO (st.parts ++ [liCloseTag]) = cUlO st.parts := by
          rw [cUlO_append]
          have : cUlO [liCloseTag] = 0 := by decide
          omega
        have q2 : cUlC (st.parts ++ [liCloseTag]) = cUlC st.parts := by
          rw [cUlC_append]
          have : cUlC [liCloseTag] = 0 := by decide
          omega
        have q3 : cLiO (st.parts ++ [liCloseTag]) = cLiO st.parts := by
          rw [cLiO_append]
          have : cLiO [liCloseTag] = 0 := by decide
          omega
        have q4 : cLiC (st.parts ++ [liCloseTag]) = cLiC st.parts + 1 := by
          rw [cLiC_append]
          have : cLiC [liCloseTag] = 1 := by decide
          omega
        have hpu1 : PfxUl (st.parts ++ [liCloseTag]) := by
          apply pfxUl_append hpu
          rw [q1, q2]
          omega
        have hpl1 : PfxLi (st.parts ++ [liCloseTag]) := by
          apply pfxLi_append hpl
          rw [q3, q4]
          have := one_le_cTrue_of_getD (by omega) hg
          omega
        refine ⟨?_, ?_, ?_, ?_, ?_, ?_⟩
        · show st.open_li.dropLast.length = st.current_level - 1 + 1
          rw [List.length_dropLast, hlen]
          omega
        · show cUlO ((st.parts ++ [liCloseTag]) ++ [ulCloseTag]) =
            cUlC ((st.parts ++ [liCloseTag]) ++ [ulCloseTag]) + (st.current_level - 1) + 1
          rw [cUlO_append, cUlC_append, q1, q2]
          have e1 : cUlO [ulCloseTag] = 0 := by decide
          have e2 : cUlC [ulCloseTag] = 1 := by decide
          omega
        · show cLiO ((st.parts ++ [liCloseTag]) ++ [ulCloseTag]) =
            cLiC ((st.parts ++ [liCloseTag]) ++ [ulCloseTag]) + cTrue st.open_li.dropLast
          rw [cLiO_append, cLiC_append, q3, q4]
          have e1 : cLiO [ulCloseTag] = 0 := by decide
          have e2 : cLiC [ulCloseTag] = 0 := by decide
          omega
        · apply pfxUl_append hpu1
          rw [cUlO_append, cUlC_append, q1, q2]
          have e1 : cUlO [ulCloseTag] = 0 := by decide
          have e2 : cUlC [ulCloseTag] = 1 := by decide
          omega
        · apply pfxLi_append hpl1
          rw [cLiO_append, cLiC_append, q3, q4]
          have e1 : cLiO [ulCloseTag] = 0 := by decide
          have e2 : cLiC [ulCloseTag] = 0 := by decide
          omega
        · exact head?_append_singleton (head?_append_singleton hhd)
      | false =>
        have hlast' : st.open_li.getD (st.open_li.length - 1) false = false := by
          rw [hidx]; exact hg
        have e3 := cTrue_dropLast_of_last_false hne hlast'
        rw [if_neg Bool.false_ne_true]
        refine ⟨?_, ?_, ?_, ?_, ?_, ?_⟩
        · show st.open_li.dropLast.length = st.current_level - 1 + 1
          rw [List.length_dropLast, hlen]
          omega
        · show cUlO (st.parts ++ [ulCloseTag]) =
            cUlC (st.parts ++ [ulCloseTag]) + (st.current_level - 1) + 1
          rw [cUlO_append, cUlC_append]
          have e1 : cUlO [ulCloseTag] = 0 := by decide
          have e2 : cUlC [ulCloseTag] = 1 := by decide
          omega
        · show cLiO (st.parts ++ [ulCloseTag]) =
            cLiC (st.parts ++ [ulCloseTag]) + cTrue st.open_li.dropLast
          rw [cLiO_append, cLiC_append]
          have e1 : cLiO [ulCloseTag] = 0 := by decide
          have e2 : cLiC [ulCloseTag] = 0 := by decide
          omega
        · apply pfxUl_append hpu
          rw [cUlO_append, cUlC_append]
          have e1 : cUlO [ulCloseTag] = 0 := by decide
          have e2 : cUlC [ulCloseTag] = 1 := by decide
          omega
        · apply pfxLi_append hpl
          rw [cLiO_append, cLiC_append]
          have e1 : cLiO [ulCloseTag] = 0 := by decide
          have e2 : cLiC [ulCloseTag] = 0 := by decide
          omega
        · exact head?_append_singleton hhd

theorem stInv_foldl : ∀ (its : List (Nat × List Char)) (st : NLState), stInv st →
    stInv (List.foldl nlStep st its) := by
  intro its
  induction its with
  | nil => intro st h; exact h
  | cons it rest ih =>
    intro st h
    exact ih _ (stInv_nlStep st it h)

theorem stInv_start : stInv ⟨[ulOpenTag], 0, [false]⟩ := by
  refine ⟨rfl, by decide, by decide, ?_, ?_, rfl⟩
  · intro n hn
    have hn0 : n = 0 := by simpa using hn
    rw [hn0]
    decide
  · intro n
    cases n with
    | zero => simp [cLiC, cLiO]
    | succ m =>
      rw [List.take_of_length_le (by simp)]
      decide

theorem nested_parts_balanced (items : List (Nat × List Char)) :
    (_render_nested_list_parts items).head? = some ulOpenTag ∧
    (_render_nested_list_parts items).getLast? = some ulCloseTag ∧
    cUlO (_render_nested_list_parts items) = cUlC (_render_nested_list_parts items) ∧
    cLiO (_render_nested_list_parts items) = cLiC (_render_nested_list_parts items) ∧
    (∀ n, n + 1 < (_render_nested_list_parts items).length →
      cUlC ((_render_nested_list_parts items).take (n+1)) <
      cUlO ((_render_nested_list_parts items).take (n+1))) ∧
    PfxLi (_render_nested_list_parts items) := by
  have hst : stInv (List.foldl nlStep ⟨[ulOpenTag], 0, [false]⟩ items) :=
    stInv_foldl items _ stInv_start
  have hfin : stInv (finishN (List.foldl nlStep ⟨[ulOpenTag], 0, [false]⟩ items).current_level
      (List.foldl nlStep ⟨[ulOpenTag], 0, [false]⟩ items)) :=
    stInv_finishN _ _ (Nat.le_refl _) hst
  have hlev : (finishN (List.foldl nlStep ⟨[ulOpenTag], 0, [false]⟩ items).current_level
      (List.foldl nlStep ⟨[ulOpenTag], 0, [false]⟩ items)).current_level = 0 := by
    rw [finishN_level]
    omega
  obtain ⟨hlen, hul, hli, hpu, hpl, hhd⟩ := hfin
  rw [hlev] at hlen hul
  have heq : _render_nested_list_parts items =
      (if (finishN (List.foldl nlStep ⟨[ulOpenTag], 0, [false]⟩ items).current_level
          (List.foldl nlStep ⟨[ulOpenTag], 0, [false]⟩ items)).open_li.getD 0 false then
        (finishN (List.foldl nlStep ⟨[ulOpenTag], 0, [false]⟩ items).current_level
          (List.foldl nlStep ⟨[ulOpenTag], 0, [false]⟩ items)).parts ++ [liCloseTag]
      else
        (finishN (List.foldl nlStep ⟨[ulOpenTag], 0, [false]⟩ items).current_level
          (List.foldl nlStep ⟨[ulOpenTag], 0, [false]⟩ items)).parts) ++ [ulCloseTag] := rfl
  rw [heq]
  cases hgd : (finishN (List.foldl nlStep ⟨[ulOpenTag], 0, [false]⟩ items).current_level
      (List.foldl nlStep ⟨[ulOpenTag], 0, [false]⟩ items)).open_li.getD 0 false with
  | true =>
    rw [if_pos rfl]
    have hct : cTrue (finishN (List.foldl nlStep ⟨[ulOpenTag], 0, [false]⟩ items).current_level
        (List.foldl nlStep ⟨[ulOpenTag], 0, [false]⟩ items)).open_li = 1 := by
      have hpos := one_le_cTrue_of_getD (by omega) hgd
      have hle : cTrue (finishN (List.foldl nlStep ⟨[ulOpenTag], 0, [false]⟩ items).current_level
          (List.foldl nlStep ⟨[ulOpenTag], 0, [false]⟩ items)).open_li ≤ 1 := by
        unfold cTrue
        calc List.countP (fun b => b) _ ≤ _ := List.countP_le_length _
        _ = 1 := hlen
      omega
    have q4 : cLiC ((finishN (List.foldl nlStep ⟨[ulOpenTag], 0, [false]⟩ items).current_level
        (List.foldl nlStep ⟨[ulOpenTag], 0, [false]⟩ items)).parts ++ [liCloseTag]) =
        cLiC (finishN (List.foldl nlStep ⟨[ulOpenTag], 0, [false]⟩ items).current_level
        (List.foldl nlStep ⟨[ulOpenTag], 0, [false]⟩ items)).parts + 1 := by
      rw [cLiC_append]
      have : cLiC [liCloseTag] = 1 := by decide
      omega
    have hpu1 : PfxUl ((finishN (List.foldl nlStep ⟨[ulOpenTag], 0, [false]⟩ items).current_level
        (List.foldl nlStep ⟨[ulOpenTag], 0, [false]⟩ items)).parts ++ [liCloseTag]) := by
      apply pfxUl_append hpu
      rw [cUlO_append, cUlC_append]
      have e1 : cUlO [liCloseTag] = 0 := by decide
      have e2 : cUlC [liCloseTag] = 0 := by decide
      omega
    refine ⟨?_, ?_, ?_, ?_, ?_, ?_⟩
    · exact head?_append_singleton (head?_append_singleton hhd)
    · exact List.getLast?_concat _
    · simp only [cUlO_append, cUlC_append]
      have e1 : cUlO [liCloseTag] = 0 := by decide
      have e2 : cUlC [liCloseTag] = 0 := by decide
      have e3 : cUlO [ulCloseTag] = 0 := by decide
      have e4 : cUlC [ulCloseTag] = 1 := by decide
      omega
    · simp only [cLiO_append, cLiC_append]
      have e1 : cLiO [liCloseTag] = 0 := by decide
      have e2 : cLiO [ulCloseTag] = 0 := by decide
      have e3 : cLiC [ulCloseTag] = 0 := by decide
      have e4 : cLiC [liCloseTag] = 1 := by decide
      rw [hct] at hli
      omega
    · intro n hn
      have hn' : n < ((finishN (List.foldl nlStep ⟨[ulOpenTag], 0, [false]⟩ items).current_level
          (List.foldl nlStep ⟨[ulOpenTag], 0, [false]⟩ items)).parts ++ [liCloseTag]).length := by
        simp only [List.length_append, List.length_singleton] at hn ⊢
        omega
      rw [take_append_singleton_of_le (by omega)]
      exact hpu1 n hn'
    · apply pfxLi_append
      · apply pfxLi_append hpl
        simp only [cLiO_append, cLiC_append]
        have e1 : cLiO [liCloseTag] = 0 := by decide
        have e4 : cLiC [liCloseTag] = 1 := by decide
        rw [hct] at hli
        omega
      · simp only [cLiO_append, cLiC_append]
        have e1 : cLiO [liCloseTag] = 0 := by decide
        have e2 : cLiO [ulCloseTag] = 0 := by decide
        have e3 : cLiC [ulCloseTag] = 0 := by decide
        have e4 : cLiC [liCloseTag] = 1 := by decide
        rw [hct] at hli
        omega
  | false =>
    rw [if_neg Bool.false_ne_true]
    have hct : cTrue (finishN (List.foldl nlStep ⟨[ulOpenTag], 0, [false]⟩ items).current_level
        (List.foldl nlStep ⟨[ulOpenTag], 0, [false]⟩ items)).open_li = 0 := by
      obtain ⟨b, hb⟩ : ∃ b, (finishN
          (List.foldl nlStep ⟨[ulOpenTag], 0, [false]⟩ items).current_level
          (List.foldl nlStep ⟨[ulOpenTag], 0, [false]⟩ items)).open_li = [b] := by
        cases hli2 : (finishN (List.foldl nlStep ⟨[ulOpenTag], 0, [false]⟩ items).current_level
            (List.foldl nlStep ⟨[ulOpenTag], 0, [false]⟩ items)).open_li with
        | nil => rw [hli2] at hlen; simp at hlen
        | cons b bs =>
          cases bs with
          | nil => exact ⟨b, rfl⟩
          | cons c cs => rw [hli2] at hlen; simp at hlen
      have hbf : b = false := by
        have := hgd
        rw [hb] at this
        simpa using this
      rw [hb, hbf]
      decide
    rw [hct] at hli
    refine ⟨?_, ?_, ?_, ?_, ?_, ?_⟩
    · exact head?_append_singleton hhd
    · exact List.getLast?_concat _
    · rw [cUlO_append, cUlC_append]
      have e3 : cUlO [ulCloseTag] = 0 := by decide
      have e4 : cUlC [ulCloseTag] = 1 := by decide
      omega
    · rw [cLiO_append, cLiC_append]
      have e2 : cLiO [ulCloseTag] = 0 := by decide
      have e3 : cLiC [ulCloseTag] = 0 := by decide
      omega
    · intro n hn
      have hn' : n < (finishN (List.foldl nlStep ⟨[ulOpenTag], 0, [false]⟩ items).current_level
          (List.foldl nlStep ⟨[ulOpenTag], 0, [false]⟩ items)).parts.length := by
        simp only [List.length_append, List.length_singleton] at hn
        omega
      rw [take_append_singleton_of_le (by omega)]
      exact hpu n hn'
    · apply pfxLi_append hpl
      rw [cLiO_append, cLiC_append]
      have e2 : cLiO [ulCloseTag] = 0 := by decide
      have e3 : cLiC [ulCloseTag] = 0 := by decide
      omega

/-- Claim C5: for every all-list-line input, the fragment sequence emitted by
the list renderer is balanced — the numbers of `<ul>` and `</ul>` tags agree,
the numbers of `<li>` openers and `</li>` closers agree, every proper prefix
keeps the `<ul>` depth strictly positive and the `</li>` count at most the
`<li>` count — and the fragment is exactly one top-level unordered list: it
starts with `<ul>`, ends with the matching `</ul>`, and the depth returns to
zero only at the very end.  The rendered string is the concatenation of these
fragments. -/
theorem render_list_nesting_wellformed (lines : List (List Char))
    (_hne : lines ≠ []) (_hall : ∀ l ∈ lines, _is_list_line l = true) :
    _render_list lines = (_render_list_parts lines).flatten ∧
    (_render_list_parts lines).head? = some ulOpenTag ∧
    (_render_list_parts lines).getLast? = some ulCloseTag ∧
    cUlO (_render_list_parts lines) = cUlC (_render_list_parts lines) ∧
    cLiO (_render_list_parts lines) = cLiC (_render_list_parts lines) ∧
    (∀ n, n + 1 < (_render_list_parts lines).length →
      cUlC ((_render_list_parts lines).take (n+1)) <
      cUlO ((_render_list_parts lines).take (n+1))) ∧
    PfxLi (_render_list_parts lines) :=
  ⟨rfl, nested_parts_balanced (_render_list_items lines)⟩

/-- Witness for C5 at the indent oscillation 0,1,2,1,0. -/
theorem render_list_nesting_wellformed_witness :
    (["- a".data, "  - b".data, "    - c".data, "  - d".data, "- e".data] ≠
      ([] : List (List Char))) ∧
    (∀ l ∈ ["- a".data, "  - b".data, "    - c".data, "  - d".data, "- e".data],
      _is_list_line l = true) ∧
    (_render_list ["- a".data, "  - b".data, "    - c".data, "  - d".data, "- e".data] =
      (_render_list_parts
        ["- a".data, "  - b".data, "    - c".data, "  - d".data, "- e".data]).flatten ∧
    (_render_list_parts
      ["- a".data, "  - b".data, "    - c".data, "  - d".data, "- e".data]).head? =
        some ulOpenTag ∧
    (_render_list_parts
      ["- a".data, "  - b".data, "    - c".data, "  - d".data, "- e".data]).getLast? =
        some ulCloseTag ∧
    cUlO (_render_list_parts
      ["- a".data, "  - b".data, "    - c".data, "  - d".data, "- e".data]) =
      cUlC (_render_list_parts
        ["- a".data, "  - b".data, "    - c".data, "  - d".data, "- e".data]) ∧
    cLiO (_render_list_parts
      ["- a".data, "  - b".data, "    - c".data, "  - d".data, "- e".data]) =
      cLiC (_render_list_parts
        ["- a".data, "  - b".data, "    - c".data, "  - d".data, "- e".data]) ∧
    (∀ n, n + 1 < (_render_list_parts
        ["- a".data, "  - b".data, "    - c".data, "  - d".data, "- e".data]).length →
      cUlC ((_render_list_parts
        ["- a".data, "  - b".data, "    - c".data, "  - d".data, "- e".data]).take (n+1)) <
      cUlO ((_render_list_parts
        ["- a".data, "  - b".data, "    - c".data, "  - d".data, "- e".data]).take (n+1))) ∧
    PfxLi (_render_list_parts
      ["- a".data, "  - b".data, "    - c".data, "  - d".data, "- e".data])) :=
  ⟨by decide, by decide,
    render_list_nesting_wellformed
      ["- a".data, "  - b".data, "    - c".data, "  - d".data, "- e".data]
      (by decide) (by decide)⟩

/-! ## Claim C1: merge idempotence — stripping and counting lemmas -/

theorem countOccs_zero_of_short {pat s : List Char} (h : s.length < pat.length) :
    countOccs pat s = 0 := by
  induction s with
  | nil =>
    have : ¬ pat.isEmpty := by
      cases pat with
      | nil => simp at h
      | cons c cs => simp
    simp [countOccs, this]
  | cons c cs ih =>
    have hnp : ¬ pat.isPrefixOf (c :: cs) = true := by
      intro hp
      have := List.IsPrefix.length_le (List.isPrefixOf_iff_prefix.mp hp)
      omega
    simp only [countOccs, hnp, if_false]
    rw [ih (by simp at h ⊢; omega)]
    simp

theorem countOccs_self {pat : List Char} (h : pat ≠ []) : countOccs pat pat = 1 := by
  cases pat with
  | nil => exact absurd rfl h
  | cons c cs =>
    have hp : (c :: cs).isPrefixOf (c :: cs) = true :=
      List.isPrefixOf_iff_prefix.mpr List.prefix_rfl
    simp only [countOccs, hp, if_true]
    rw [countOccs_zero_of_short (by simp)]

theorem countOccs_zero_of_not_infix {pat s : List Char} (h : ¬ pat <:+: s) :
    countOccs pat s = 0 :=
  (countOccs_eq_zero_iff pat s).mpr ((containsB_false_iff pat s).mpr h)

theorem not_infix_of_count_zero {pat s : List Char} (_hpat : pat ≠ [])
    (h : countOccs pat s = 0) : ¬ pat <:+: s :=
  (containsB_false_iff pat s).mp ((countOccs_eq_zero_iff pat s).mp h)

theorem not_infix_trans {pat s t : List Char} (hsub : s <:+: t) (h : ¬ pat <:+: t) :
    ¬ pat <:+: s := fun hc => h (List.IsInfix.trans hc hsub)

theorem dropWhile_eq_nil_iff_all {p : Char → Bool} {l : List Char} :
    l.dropWhile p = [] ↔ ∀ c ∈ l, p c = true := by
  constructor
  · intro h c hc
    induction l with
    | nil => simp at hc
    | cons a as ih =>
      rw [List.dropWhile_cons] at h
      by_cases ha : p a = true
      · rw [if_pos ha] at h
        rcases List.mem_cons.mp hc with rfl | hmem
        · exact ha
        · exact ih h hmem
      · rw [if_neg ha] at h
        exact absurd h (by simp)
  · exact dropWhile_eq_nil_of_all

theorem pyLstrip_eq_nil_iff {s : List Char} : pyLstrip s = [] ↔ ∀ c ∈ s, isPySpace c = true :=
  dropWhile_eq_nil_iff_all

theorem pyRstrip_eq_nil_iff {s : List Char} : pyRstrip s = [] ↔ ∀ c ∈ s, isPySpace c = true := by
  unfold pyRstrip
  rw [List.reverse_eq_nil_iff, dropWhile_eq_nil_iff_all]
  constructor
  · intro h c hc
    exact h c (List.mem_reverse.mpr hc)
  · intro h c hc
    exact h c (List.mem_reverse.mp hc)

theorem pyRstrip_append (X Y : List Char) :
    pyRstrip (X ++ Y) = if pyRstrip Y = [] then pyRstrip X else X ++ pyRstrip Y := by
  unfold pyRstrip
  rw [List.reverse_append, List.dropWhile_append]
  by_cases h : (Y.reverse.dropWhile isPySpace).isEmpty
  · rw [if_pos h]
    rw [if_pos (by rw [List.reverse_eq_nil_iff]; exact List.isEmpty_iff.mp h)]
  · rw [if_neg h]
    rw [if_neg (by rw [List.reverse_eq_nil_iff]; exact fun hh => h (List.isEmpty_iff.mpr hh))]
    rw [List.reverse_append, List.reverse_reverse]

theorem pyLstrip_append (X Y : List Char) :
    pyLstrip (X ++ Y) = if pyLstrip X = [] then pyLstrip Y else pyLstrip X ++ Y := by
  unfold pyLstrip
  rw [List.dropWhile_append]
  by_cases h : (X.dropWhile isPySpace).isEmpty
  · rw [if_pos h, if_pos (List.isEmpty_iff.mp h)]
  · rw [if_neg h, if_neg (fun hh => h (List.isEmpty_iff.mpr hh))]

theorem pyRstrip_prefix_self (X : List Char) : pyRstrip X <+: X := by
  have h : X.reverse.dropWhile isPySpace <:+ X.reverse := List.dropWhile_suffix isPySpace
  have := List.IsSuffix.reverse h
  rwa [List.reverse_reverse] at this

theorem pyLstrip_suffix_self (X : List Char) : pyLstrip X <:+ X :=
  List.dropWhile_suffix isPySpace

theorem pyRstrip_getLast_nonspace {X : List Char} (h : pyRstrip X ≠ []) :
    ∃ c, (pyRstrip X).getLast? = some c ∧ isPySpace c = false := by
  unfold pyRstrip at h ⊢
  cases hd : X.reverse.dropWhile isPySpace with
  | nil => rw [hd] at h; simp at h
  | cons c cs =>
    refine ⟨c, ?_, ?_⟩
    · simp
    · have := List.head?_dropWhile_not isPySpace X.reverse
      rw [hd] at this
      simpa using this

theorem pyRstrip_eq_self_of_getLast {X : List Char} {c : Char}
    (hl : X.getLast? = some c) (hc : isPySpace c = false) : pyRstrip X = X := by
  obtain ⟨Y, hY⟩ := List.getLast?_eq_some_iff.mp hl
  rw [hY, pyRstrip_append]
  rw [if_neg (by
    intro hnil
    rw [show pyRstrip [c] = [c] from by unfold pyRstrip; simp [List.dropWhile_cons, hc]] at hnil
    exact List.noConfusion hnil)]
  rw [show pyRstrip [c] = [c] from by unfold pyRstrip; simp [List.dropWhile_cons, hc]]

theorem pyRstrip_idem (X : List Char) : pyRstrip (pyRstrip X) = pyRstrip X := by
  by_cases h : pyRstrip X = []
  · rw [h]; rfl
  · obtain ⟨c, hc, hcs⟩ := pyRstrip_getLast_nonspace h
    exact pyRstrip_eq_self_of_getLast hc hcs

theorem pyLstrip_head_nonspace {X : List Char} (h : pyLstrip X ≠ []) :
    ∃ c, (pyLstrip X).head? = some c ∧ isPySpace c = false := by
  unfold pyLstrip at h ⊢
  cases hd : X.dropWhile isPySpace with
  | nil => rw [hd] at h; simp at h
  | cons c cs =>
    refine ⟨c, by simp, ?_⟩
    have := List.head?_dropWhile_not isPySpace X
    rw [hd] at this
    simpa using this

theorem pyLstrip_eq_self_of_head {X : List Char} {c : Char}
    (hh : X.head? = some c) (hc : isPySpace c = false) : pyLstrip X = X := by
  cases X with
  | nil => rfl
  | cons a as =>
    have : a = c := by simpa using hh
    rw [this]
    exact pyLstrip_cons_of_nonspace hc

theorem pyLstrip_idem (X : List Char) : pyLstrip (pyLstrip X) = pyLstrip X := by
  by_cases h : pyLstrip X = []
  · rw [h]; rfl
  · obtain ⟨c, hc, hcs⟩ := pyLstrip_head_nonspace h
    exact pyLstrip_eq_self_of_head hc hcs

theorem pyStrip_comm (X : List Char) : pyLstrip (pyRstrip X) = pyRstrip (pyLstrip X) := by
  induction X with
  | nil => rfl
  | cons c X' ih =>
    by_cases hc : isPySpace c = true
    · have hls : pyLstrip (c :: X') = pyLstrip X' := by
        unfold pyLstrip
        rw [List.dropWhile_cons, if_pos hc]
      have hrs : pyRstrip (c :: X') =
          if pyRstrip X' = [] then pyRstrip [c] else [c] ++ pyRstrip X' := by
        rw [show (c :: X') = [c] ++ X' from rfl, pyRstrip_append]
      by_cases hX : pyRstrip X' = []
      · rw [hrs, if_pos hX, hls]
        rw [show pyRstrip [c] = [] from by
          unfold pyRstrip; simp [List.dropWhile_cons, hc]]
        rw [pyLstrip_eq_nil_iff.mpr (pyRstrip_eq_nil_iff.mp hX)]
        rfl
      · rw [hls, hrs, if_neg hX]
        rw [show ([c] ++ pyRstrip X' : List Char) = c :: pyRstrip X' from rfl]
        rw [show pyLstrip (c :: pyRstrip X') = pyLstrip (pyRstrip X') from by
          unfold pyLstrip; rw [List.dropWhile_cons, if_pos hc]]
        exact ih
    · have hcb : isPySpace c = false := by simpa using hc
      have hls : pyLstrip (c :: X') = c :: X' := pyLstrip_cons_of_nonspace hcb
      rw [hls]
      have hrs : pyRstrip (c :: X') =
          if pyRstrip X' = [] then pyRstrip [c] else [c] ++ pyRstrip X' := by
        rw [show (c :: X') = [c] ++ X' from rfl, pyRstrip_append]
      by_cases hX : pyRstrip X' = []
      · rw [hrs, if_pos hX]
        rw [show pyRstrip [c] = [c] from by
          unfold pyRstrip; simp [List.dropWhile_cons, hcb]]
        exact pyLstrip_cons_of_nonspace hcb
      · rw [hrs, if_neg hX]
        rw [show ([c] ++ pyRstrip X' : List Char) = c :: pyRstrip X' from rfl]
        exact pyLstrip_cons_of_nonspace hcb

theorem pyLstrip_nl_append (X : List Char) : pyLstrip ("\n".data ++ X) = pyLstrip X := by
  unfold pyLstrip
  rw [List.dropWhile_append]
  simp [List.dropWhile_cons, show isPySpace '\n' = true from by decide]

theorem pyRstrip_append_nl (X : List Char) : pyRstrip (X ++ "\n".data) = pyRstrip X := by
  rw [pyRstrip_append]
  rw [if_pos (show pyRstrip "\n".data = [] from by decide)]

/-! ## Claim C1: locating the first occurrence of a delimiter -/

theorem splitFirst?_eq_none {pat s : List Char} (hpat : pat ≠ []) (h : ¬ pat <:+: s) :
    splitFirst? pat s = none := by
  induction s with
  | nil => simp [splitFirst?, List.isEmpty_iff, hpat]
  | cons c cs ih =>
    have hnp : ¬ pat.isPrefixOf (c :: cs) = true := fun hp =>
      h (List.IsPrefix.isInfix (List.isPrefixOf_iff_prefix.mp hp))
    simp only [splitFirst?, hnp, if_false]
    rw [ih (fun hi => h (List.infix_cons hi))]
    rfl

/-- `pat` has no nonempty proper border: no strict nonempty prefix of it is
also a suffix of it.  Both status delimiters satisfy this (checked by
`decide`); it makes the first occurrence of `pat` in `A ++ pat ++ R`
independent of `R`. -/
@[reducible] def BorderFree (pat : List Char) : Prop :=
  ∀ k, k < pat.length → 0 < k → ¬ (pat.take k <:+ pat)

theorem borderFree_START : BorderFree STATUS_START := by decide

theorem borderFree_END : BorderFree STATUS_END := by decide

theorem splitFirst?_append {pat : List Char} (hpat : pat ≠ []) (hbf : BorderFree pat) :
    ∀ (A R : List Char), ¬ pat <:+: A →
    splitFirst? pat (A ++ (pat ++ R)) = some (A, R) := by
  intro A
  induction A with
  | nil =>
    intro R _
    rw [List.nil_append]
    obtain ⟨c, cs, rfl⟩ : ∃ c cs, pat = c :: cs := by
      cases pat with
      | nil => exact absurd rfl hpat
      | cons c cs => exact ⟨c, cs, rfl⟩
    rw [List.cons_append]
    have hpre : (c :: cs).isPrefixOf (c :: (cs ++ R)) = true := by
      apply List.isPrefixOf_iff_prefix.mpr
      rw [← List.cons_append]
      exact List.prefix_append _ _
    simp only [splitFirst?, hpre, if_true]
    rw [show (c :: (cs ++ R) : List Char) = (c :: cs) ++ R from by rw [List.cons_append]]
    rw [List.drop_left]
  | cons a A' ih =>
    intro R hA
    have hnp : ¬ pat.isPrefixOf (a :: (A' ++ (pat ++ R))) = true := by
      intro hp
      have hp' : pat <+: (a :: A') ++ (pat ++ R) := by
        rw [List.cons_append]
        exact List.isPrefixOf_iff_prefix.mp hp
      rcases prefix_split hp' with h1 | h1
      · exact hA (List.IsPrefix.isInfix h1)
      · rcases h1 with ⟨t, ht⟩
        have hp2 : (a :: A') ++ t <+: (a :: A') ++ (pat ++ R) := by
          rw [ht]
          exact hp'
        have htp : t <+: pat ++ R := prefix_cancel_left hp2
        have hts : t <:+ pat := ⟨a :: A', ht⟩
        have htlen : t.length ≤ pat.length := List.IsSuffix.length_le hts
        have htpre : t <+: pat := by
          rcases prefix_split htp with h2 | h2
          · exact h2
          · have := List.IsPrefix.eq_of_length_le h2 htlen
            exact this ▸ List.prefix_rfl
        by_cases ht0 : t = []
        · rw [ht0, List.append_nil] at ht
          exact hA (ht ▸ List.infix_rfl)
        · by_cases htfull : t.length = pat.length
          · have hteq : t = pat := List.IsPrefix.eq_of_length htpre htfull
            rw [hteq] at ht
            have := congrArg List.length ht
            simp at this
            omega
          · have hlt : t.length < pat.length := lt_of_le_of_ne htlen htfull
            exact hbf t.length hlt (List.length_pos.mpr ht0)
              (List.prefix_iff_eq_take.mp htpre ▸ hts)
    rw [List.cons_append]
    simp only [splitFirst?, hnp, if_false]
    rw [ih R (fun hi => hA (List.infix_cons hi))]
    rfl

theorem split0_of_decomp {pat A R : List Char} (hpat : pat ≠ []) (hbf : BorderFree pat)
    (hA : ¬ pat <:+: A) : split0 pat (A ++ (pat ++ R)) = A := by
  unfold split0
  rw [splitFirst?_append hpat hbf A R hA]

theorem split1after_of_decomp {pat A R : List Char} (hpat : pat ≠ []) (hbf : BorderFree pat)
    (hA : ¬ pat <:+: A) (hR : ¬ pat <:+: R) :
    split1after pat (A ++ (pat ++ R)) = R := by
  unfold split1after
  rw [splitFirst?_append hpat hbf A R hA]
  show (match splitFirst? pat R with | none => R | some q => q.1) = R
  rw [splitFirst?_eq_none hpat hR]

theorem split0_of_clean {pat s : List Char} (hpat : pat ≠ []) (h : ¬ pat <:+: s) :
    split0 pat s = s := by
  unfold split0
  rw [splitFirst?_eq_none hpat h]

theorem split1after_of_clean {pat s : List Char} (hpat : pat ≠ []) (h : ¬ pat <:+: s) :
    split1after pat s = [] := by
  unfold split1after
  rw [splitFirst?_eq_none hpat h]

/-! ## Claim C1: the status block decomposed around its delimiters -/

def blockSeg1 : List Char := "\n<p><strong>Sammanfattning:</strong></p>\n".data

def blockSeg2 : List Char := "\n<p><strong>Progress:</strong> ".data

def blockSeg3 : List Char := "</p>\n<p><strong>Senast uppdaterad:</strong> ".data

def blockSeg4 : List Char := "</p>\n".data

/-- Everything of the status block strictly between the two delimiters. -/
def blockMid (today summary_html progress : List Char) : List Char :=
  blockSeg1 ++ (summary_html ++ (blockSeg2 ++ (escape_html progress ++
    (blockSeg3 ++ (today ++ blockSeg4)))))

theorem status_block_eq (t S P : List Char) :
    status_block t S P = STATUS_START ++ (blockMid t S P ++ STATUS_END) := by
  simp [status_block, blockMid, blockSeg1, blockSeg2, blockSeg3, blockSeg4,
    STATUS_START, STATUS_END, List.intercalate, List.intersperse]

theorem head?_append_left {X Y : List Char} {c : Char} (h : X.head? = some c) :
    (X ++ Y).head? = some c := by
  cases X with
  | nil => exact Option.noConfusion h
  | cons a as => simpa using h

theorem getLast?_append_right {X Y : List Char} {c : Char} (h : Y.getLast? = some c) :
    (X ++ Y).getLast? = some c := by
  rw [List.getLast?_append]
  simp [h]

theorem blockMid_head (t S P : List Char) : (blockMid t S P).head? = some '\n' := by
  unfold blockMid
  exact head?_append_left rfl

theorem blockMid_last (t S P : List Char) : (blockMid t S P).getLast? = some '\n' := by
  unfold blockMid
  exact getLast?_append_right (getLast?_append_right (getLast?_append_right
    (getLast?_append_right (getLast?_append_right (getLast?_append_right (by decide))))))

theorem lt_not_mem_escape (P : List Char) : '<' ∉ escape_html P := by
  intro h
  rcases List.mem_flatMap.mp h with ⟨c, hcP, hmem⟩
  unfold escChar at hmem
  split_ifs at hmem with h1 h2 h3 h4 h5
  · exact absurd hmem (by decide)
  · exact absurd hmem (by decide)
  · exact absurd hmem (by decide)
  · exact absurd hmem (by decide)
  · exact absurd hmem (by decide)
  · simp at hmem
    exact h2 hmem.symm

theorem noSpan_concrete_left {pat q Y : List Char}
    (hA : ∀ k, k < pat.length + 1 → 0 < k → ¬ (pat.take k <:+ q))
    (hB : ¬ q <:+: pat) : NoSpan pat q Y := by
  have := @noSpan_append_left pat ([] : List Char) q Y hA hB
  rwa [List.nil_append] at this

theorem noSpan_concrete_right {pat X q : List Char}
    (hA : ∀ k, k < pat.length → 0 < k → ¬ (pat.drop k <+: q))
    (hB : ¬ q <:+: pat) : NoSpan pat X q := by
  have := @noSpan_append_right pat X q ([] : List Char) hA hB
  rwa [List.append_nil] at this

theorem blockMid_count_zero {pat t S P : List Char} (hpat : pat ≠ [])
    (hnl : '\n' ∉ pat) (hlt : pat.head? = some '<')
    (hS : countOccs pat S = 0) (ht : countOccs pat t = 0)
    (h1 : countOccs pat blockSeg1 = 0) (h2 : countOccs pat blockSeg2 = 0)
    (h3 : countOccs pat blockSeg3 = 0) (h4 : countOccs pat blockSeg4 = 0)
    (hq2a : ∀ k, k < pat.length + 1 → 0 < k → ¬ (pat.take k <:+ blockSeg2))
    (hq2b : ¬ blockSeg2 <:+: pat)
    (hq3a : ∀ k, k < pat.length + 1 → 0 < k → ¬ (pat.take k <:+ blockSeg3))
    (hq3b : ¬ blockSeg3 <:+: pat)
    (hq4a : ∀ k, k < pat.length → 0 < k → ¬ (pat.drop k <+: blockSeg4))
    (hq4b : ¬ blockSeg4 <:+: pat) :
    countOccs pat (blockMid t S P) = 0 := by
  unfold blockMid
  rw [countOccs_append_of_noSpan pat hpat blockSeg1 _
    (noSpan_of_last_left (show blockSeg1.getLast? = some '\n' from by decide) hnl), h1]
  rw [countOccs_append_of_noSpan pat hpat S _
    (noSpan_of_head_right (head?_append_left (show blockSeg2.head? = some '\n' from rfl)) hnl),
    hS]
  rw [countOccs_append_of_noSpan pat hpat blockSeg2 _ (noSpan_concrete_left hq2a hq2b), h2]
  rw [countOccs_append_of_noSpan pat hpat (escape_html P) _
    (noSpan_of_head_left hlt (lt_not_mem_escape P)),
    countOccs_zero_of_not_mem pat (escape_html P) '<' hlt (lt_not_mem_escape P)]
  rw [countOccs_append_of_noSpan pat hpat blockSeg3 _ (noSpan_concrete_left hq3a hq3b), h3]
  rw [countOccs_append_of_noSpan pat hpat t _ (noSpan_concrete_right hq4a hq4b), ht, h4]

theorem blockMid_count_START {t S P : List Char}
    (hS : countOccs STATUS_START S = 0) (ht : countOccs STATUS_START t = 0) :
    countOccs STATUS_START (blockMid t S P) = 0 :=
  blockMid_count_zero (by decide) (by decide) (by decide) hS ht (by decide) (by decide)
    (by decide) (by decide) (by decide) (by decide) (by decide) (by decide) (by decide)
    (by decide)

theorem blockMid_count_END {t S P : List Char}
    (hS : countOccs STATUS_END S = 0) (ht : countOccs STATUS_END t = 0) :
    countOccs STATUS_END (blockMid t S P) = 0 :=
  blockMid_count_zero (by decide) (by decide) (by decide) hS ht (by decide) (by decide)
    (by decide) (by decide) (by decide) (by decide) (by decide) (by decide) (by decide)
    (by decide)

theorem block_count_START {t S P : List Char}
    (hS : countOccs STATUS_START S = 0) (ht : countOccs STATUS_START t = 0) :
    countOccs STATUS_START (status_block t S P) = 1 := by
  rw [status_block_eq]
  rw [countOccs_append_of_noSpan STATUS_START (by decide) STATUS_START _
    (noSpan_of_head_right (head?_append_left (blockMid_head t S P)) (by decide))]
  rw [countOccs_self (show STATUS_START ≠ [] from by decide)]
  rw [countOccs_append_of_noSpan STATUS_START (by decide) _ STATUS_END
    (noSpan_of_last_left (blockMid_last t S P) (by decide))]
  rw [blockMid_count_START hS ht]
  rw [show countOccs STATUS_START STATUS_END = 0 from by decide]

theorem block_count_END {t S P : List Char}
    (hS : countOccs STATUS_END S = 0) (ht : countOccs STATUS_END t = 0) :
    countOccs STATUS_END (status_block t S P) = 1 := by
  rw [status_block_eq]
  rw [countOccs_append_of_noSpan STATUS_END (by decide) STATUS_START _
    (noSpan_of_head_right (head?_append_left (blockMid_head t S P)) (by decide))]
  rw [show countOccs STATUS_END STATUS_START = 0 from by decide]
  rw [countOccs_append_of_noSpan STATUS_END (by decide) _ STATUS_END
    (noSpan_of_last_left (blockMid_last t S P) (by decide))]
  rw [blockMid_count_END hS ht]
  rw [countOccs_self (show STATUS_END ≠ [] from by decide)]

theorem block_head (t S P : List Char) : (status_block t S P).head? = some '<' := by
  rw [status_block_eq]
  exact head?_append_left rfl

theorem block_last (t S P : List Char) : (status_block t S P).getLast? = some '>' := by
  rw [status_block_eq]
  exact getLast?_append_right (getLast?_append_right (by decide))

/-! ## Claim C1: the two merge branches of update_status_in_description -/

theorem intercalate3 (x y z : List Char) :
    List.intercalate "\n".data [x, y, z] = x ++ ("\n".data ++ (y ++ ("\n".data ++ z))) := by
  simp [List.intercalate, List.intersperse]

/-- The shape of the replace branch of `update_status_in_description`: the
stripped before-part (followed by a newline when nonempty), the fresh status
block, the stripped after-part (preceded by a newline when nonempty), and a
final newline. -/
def mjF (b blk a : List Char) : List Char :=
  (if pyLstrip b = [] then [] else pyLstrip b ++ "\n".data) ++
    (blk ++ ((if pyRstrip a = [] then [] else "\n".data ++ pyRstrip a) ++ "\n".data))

theorem mergeA_eq (t D S P : List Char) (hD : ¬ STATUS_START <:+: D) :
    update_status_in_description t D S P =
      pyRstrip D ++ ("\n\n".data ++ (status_block t S P ++ "\n".data)) := by
  have hc : containsB STATUS_START D = false := (containsB_false_iff _ _).mpr hD
  simp only [update_status_in_description, hc, Bool.false_and, Bool.false_eq_true,
    if_false, List.append_assoc]

theorem mergeJoin_eq (b blk a : List Char) {cH cL : Char}
    (hH : blk.head? = some cH) (hHs : isPySpace cH = false)
    (hL : blk.getLast? = some cL) (hLs : isPySpace cL = false) :
    pyStrip (b ++ ("\n".data ++ (blk ++ ("\n".data ++ a)))) ++ "\n".data = mjF b blk a := by
  have hblk_ne : blk ≠ [] := by
    intro h
    rw [h] at hH
    exact Option.noConfusion hH
  have hrs_blk : pyRstrip blk = blk := pyRstrip_eq_self_of_getLast hL hLs
  have hls_blk : pyLstrip blk = blk := pyLstrip_eq_self_of_head hH hHs
  by_cases ha : pyRstrip a = []
  · have h1 : pyRstrip ("\n".data ++ a) = [] := by
      rw [pyRstrip_append, if_pos ha]
      decide
    have h2 : pyRstrip (blk ++ ("\n".data ++ a)) = blk := by
      rw [pyRstrip_append, if_pos h1, hrs_blk]
    have h3 : pyRstrip ("\n".data ++ (blk ++ ("\n".data ++ a))) = "\n".data ++ blk := by
      rw [pyRstrip_append, h2, if_neg hblk_ne]
    have h4 : pyRstrip (b ++ ("\n".data ++ (blk ++ ("\n".data ++ a)))) =
        b ++ ("\n".data ++ blk) := by
      rw [pyRstrip_append, h3, if_neg (show "\n".data ++ blk ≠ [] from by simp)]
    unfold pyStrip
    rw [h4, pyLstrip_append]
    by_cases hb : pyLstrip b = []
    · rw [if_pos hb, pyLstrip_nl_append, hls_blk]
      unfold mjF
      rw [if_pos hb, if_pos ha]
      simp
    · rw [if_neg hb]
      unfold mjF
      rw [if_neg hb, if_pos ha]
      simp [List.append_assoc]
  · have h1 : pyRstrip ("\n".data ++ a) = "\n".data ++ pyRstrip a := by
      rw [pyRstrip_append, if_neg ha]
    have h2 : pyRstrip (blk ++ ("\n".data ++ a)) = blk ++ ("\n".data ++ pyRstrip a) := by
      rw [pyRstrip_append, h1, if_neg (show "\n".data ++ pyRstrip a ≠ [] from by simp)]
    have h3 : pyRstrip ("\n".data ++ (blk ++ ("\n".data ++ a))) =
        "\n".data ++ (blk ++ ("\n".data ++ pyRstrip a)) := by
      rw [pyRstrip_append, h2,
        if_neg (show blk ++ ("\n".data ++ pyRstrip a) ≠ [] from by simp)]
    have h4 : pyRstrip (b ++ ("\n".data ++ (blk ++ ("\n".data ++ a)))) =
        b ++ ("\n".data ++ (blk ++ ("\n".data ++ pyRstrip a))) := by
      rw [pyRstrip_append, h3,
        if_neg (show "\n".data ++ (blk ++ ("\n".data ++ pyRstrip a)) ≠ [] from by simp)]
    unfold pyStrip
    rw [h4, pyLstrip_append]
    by_cases hb : pyLstrip b = []
    · rw [if_pos hb, pyLstrip_nl_append]
      rw [pyLstrip_append, hls_blk, if_neg hblk_ne]
      unfold mjF
      rw [if_pos hb, if_neg ha]
      simp [List.append_assoc]
    · rw [if_neg hb]
      unfold mjF
      rw [if_neg hb, if_neg ha]
      simp [List.append_assoc]

/-- The replace branch expressed through fully stripped surroundings. -/
def mjS (b blk a : List Char) : List Char :=
  (if pyStrip b = [] then [] else pyStrip b ++ "\n".data) ++
    (blk ++ ((if pyStrip a = [] then [] else "\n".data ++ pyStrip a) ++ "\n".data))

theorem mergeB_eq (t S P A MID B : List Char)
    (hAs : countOccs STATUS_START A = 0) (hAe : countOccs STATUS_END A = 0)
    (hMe : countOccs STATUS_END MID = 0) (hBe : countOccs STATUS_END B = 0) :
    update_status_in_description t (A ++ (STATUS_START ++ (MID ++ (STATUS_END ++ B)))) S P =
      mjS A (status_block t S P) B := by
  set D := A ++ (STATUS_START ++ (MID ++ (STATUS_END ++ B))) with hDdef
  have hcs : containsB STATUS_START D = true := by
    apply (containsB_iff _ _).mpr
    exact ⟨A, MID ++ (STATUS_END ++ B), by rw [hDdef]; simp [List.append_assoc]⟩
  have hce : containsB STATUS_END D = true := by
    apply (containsB_iff _ _).mpr
    exact ⟨A ++ (STATUS_START ++ MID), B, by rw [hDdef]; simp [List.append_assoc]⟩
  have hsplit0 : split0 STATUS_START D = A := by
    rw [hDdef]
    exact split0_of_decomp (by decide) borderFree_START
      (not_infix_of_count_zero (by decide) hAs)
  have hD2 : D = (A ++ (STATUS_START ++ MID)) ++ (STATUS_END ++ B) := by
    rw [hDdef]
    simp [List.append_assoc]
  have hpreE : countOccs STATUS_END (A ++ (STATUS_START ++ MID)) = 0 := by
    rw [countOccs_append_of_noSpan STATUS_END (by decide) A _
      (@noSpan_append_right STATUS_END A STATUS_START MID (by decide) (by decide)), hAe]
    rw [countOccs_append_of_noSpan STATUS_END (by decide) STATUS_START MID
      (noSpan_concrete_left (by decide) (by decide))]
    rw [show countOccs STATUS_END STATUS_START = 0 from by decide, hMe]
  have hsplit1 : split1after STATUS_END D = B := by
    rw [hD2]
    exact split1after_of_decomp (by decide) borderFree_END
      (not_infix_of_count_zero (by decide) hpreE)
      (not_infix_of_count_zero (by decide) hBe)
  have hcond : (containsB STATUS_START D && containsB STATUS_END D) = true := by
    rw [hcs, hce]
    rfl
  simp only [update_status_in_description, hcond, if_true]
  rw [hsplit0, hsplit1, intercalate3]
  have hstr : pyRstrip (pyRstrip A) = pyRstrip A := pyRstrip_idem A
  have hmj := mergeJoin_eq (pyRstrip A) (status_block t S P) (pyLstrip B)
    (block_head t S P) (by decide) (block_last t S P) (by decide)
  rw [hmj]
  unfold mjF mjS pyStrip
  rw [← pyStrip_comm B]

/-! ## Claim C1: counting and stripping around a freshly inserted block -/

theorem countOccs_nil {pat : List Char} (hpat : pat ≠ []) : countOccs pat [] = 0 := by
  simp [countOccs, List.isEmpty_iff, hpat]

theorem countOccs_nl_zero {pat : List Char} (hpat : pat ≠ []) (hnl : '\n' ∉ pat) :
    countOccs pat "\n".data = 0 := by
  obtain ⟨c, cs, rfl⟩ : ∃ c cs, pat = c :: cs := by
    cases pat with
    | nil => exact absurd rfl hpat
    | cons c cs => exact ⟨c, cs, rfl⟩
  refine countOccs_zero_of_not_mem (c :: cs) "\n".data c rfl ?_
  intro h
  have hc : c = '\n' := by simpa using h
  exact hnl (hc ▸ List.mem_cons_self c cs)

theorem count_opt_pad_left {pat v : List Char} (hpat : pat ≠ []) (hnl : '\n' ∉ pat)
    (hv : countOccs pat v = 0) :
    countOccs pat (if v = [] then [] else v ++ "\n".data) = 0 := by
  by_cases h : v = []
  · rw [if_pos h]
    exact countOccs_nil hpat
  · rw [if_neg h]
    rw [countOccs_append_of_noSpan pat hpat v _
      (noSpan_of_head_right (show ("\n".data : List Char).head? = some '\n' from rfl) hnl),
      hv, countOccs_nl_zero hpat hnl]

theorem count_opt_pad_right {pat v : List Char} (hpat : pat ≠ []) (hnl : '\n' ∉ pat)
    (hv : countOccs pat v = 0) :
    countOccs pat (if v = [] then [] else "\n".data ++ v) = 0 := by
  by_cases h : v = []
  · rw [if_pos h]
    exact countOccs_nil hpat
  · rw [if_neg h]
    rw [countOccs_append_of_noSpan pat hpat "\n".data v
      (noSpan_of_last_left (show ("\n".data : List Char).getLast? = some '\n' from rfl) hnl),
      hv, countOccs_nl_zero hpat hnl]

theorem pyStrip_infix_self (X : List Char) : pyStrip X <:+: X :=
  List.IsInfix.trans (List.IsSuffix.isInfix (pyLstrip_suffix_self (pyRstrip X)))
    (List.IsPrefix.isInfix (pyRstrip_prefix_self X))

theorem count_zero_pyStrip {pat X : List Char} (hpat : pat ≠ [])
    (h : countOccs pat X = 0) : countOccs pat (pyStrip X) = 0 :=
  countOccs_zero_of_not_infix
    (not_infix_trans (pyStrip_infix_self X) (not_infix_of_count_zero hpat h))

theorem count_zero_pyRstrip {pat X : List Char} (hpat : pat ≠ [])
    (h : countOccs pat X = 0) : countOccs pat (pyRstrip X) = 0 :=
  countOccs_zero_of_not_infix
    (not_infix_trans (List.IsPrefix.isInfix (pyRstrip_prefix_self X))
      (not_infix_of_count_zero hpat h))

theorem pyStrip_append_nl (X : List Char) : pyStrip (X ++ "\n".data) = pyStrip X := by
  unfold pyStrip
  rw [pyRstrip_append_nl]

theorem pyStrip_append_nl2 (X : List Char) : pyStrip (X ++ "\n\n".data) = pyStrip X := by
  unfold pyStrip
  rw [pyRstrip_append, if_pos (show pyRstrip "\n\n".data = [] from by decide)]

theorem pyStrip_nl_append (X : List Char) : pyStrip ("\n".data ++ X) = pyStrip X := by
  unfold pyStrip
  by_cases h : pyRstrip X = []
  · rw [pyRstrip_append, if_pos h, h, show pyRstrip "\n".data = [] from by decide]
  · rw [pyRstrip_append, if_neg h, pyLstrip_nl_append]

theorem pyStrip_rstrip (X : List Char) : pyStrip (pyRstrip X) = pyStrip X := by
  unfold pyStrip
  rw [pyRstrip_idem]

theorem pyStrip_idem (X : List Char) : pyStrip (pyStrip X) = pyStrip X := by
  unfold pyStrip
  rw [← pyStrip_comm (pyRstrip X), pyRstrip_idem, pyLstrip_idem]

theorem pyStrip_opt_pad_left (v : List Char) (hv : pyStrip v = v) :
    pyStrip (if v = [] then [] else v ++ "\n".data) = v := by
  by_cases h : v = []
  · rw [if_pos h, h]
    rfl
  · rw [if_neg h, pyStrip_append_nl, hv]

theorem pyStrip_opt_pad_right_nl (v : List Char) (hv : pyStrip v = v) :
    pyStrip ((if v = [] then [] else "\n".data ++ v) ++ "\n".data) = v := by
  rw [pyStrip_append_nl]
  by_cases h : v = []
  · rw [if_pos h, h]
    rfl
  · rw [if_neg h, pyStrip_nl_append, hv]

theorem count_around_block {pat x blk y : List Char} (hpat : pat ≠ [])
    (hnl : '\n' ∉ pat)
    (hx0 : countOccs pat x = 0) (hy0 : countOccs pat y = 0)
    (hxl : x = [] ∨ x.getLast? = some '\n') (hyh : y = [] ∨ y.head? = some '\n')
    (hblk : countOccs pat blk = 1) :
    countOccs pat (x ++ (blk ++ (y ++ "\n".data))) = 1 := by
  have hnlz : countOccs pat "\n".data = 0 := countOccs_nl_zero hpat hnl
  have hyn : countOccs pat (y ++ "\n".data) = 0 := by
    rw [countOccs_append_of_noSpan pat hpat y _
      (noSpan_of_head_right (show ("\n".data : List Char).head? = some '\n' from rfl) hnl),
      hy0, hnlz]
  have hhead : (y ++ "\n".data).head? = some '\n' := by
    rcases hyh with rfl | hy
    · rfl
    · exact head?_append_left hy
  have h2 : countOccs pat (blk ++ (y ++ "\n".data)) = 1 := by
    rw [countOccs_append_of_noSpan pat hpat blk _ (noSpan_of_head_right hhead hnl),
      hblk, hyn]
  rcases hxl with rfl | hx
  · rw [List.nil_append]
    exact h2
  · rw [countOccs_append_of_noSpan pat hpat x _ (noSpan_of_last_left hx hnl), hx0, h2]

theorem around_block_props (t2 S2 P2 x y : List Char)
    (hxs : countOccs STATUS_START x = 0) (hxe : countOccs STATUS_END x = 0)
    (hys : countOccs STATUS_START y = 0) (hye : countOccs STATUS_END y = 0)
    (hxl : x = [] ∨ x.getLast? = some '\n')
    (hyh : y = [] ∨ y.head? = some '\n')
    (hS2s : countOccs STATUS_START S2 = 0) (hS2e : countOccs STATUS_END S2 = 0)
    (ht2s : countOccs STATUS_START t2 = 0) (ht2e : countOccs STATUS_END t2 = 0) :
    countOccs STATUS_START (x ++ (status_block t2 S2 P2 ++ (y ++ "\n".data))) = 1 ∧
    countOccs STATUS_END (x ++ (status_block t2 S2 P2 ++ (y ++ "\n".data))) = 1 ∧
    split0 STATUS_START (x ++ (status_block t2 S2 P2 ++ (y ++ "\n".data))) = x ∧
    split1after STATUS_END (x ++ (status_block t2 S2 P2 ++ (y ++ "\n".data))) =
      y ++ "\n".data := by
  refine ⟨?_, ?_, ?_, ?_⟩
  · exact count_around_block (by decide) (by decide) hxs hys hxl hyh
      (block_count_START hS2s ht2s)
  · exact count_around_block (by decide) (by decide) hxe hye hxl hyh
      (block_count_END hS2e ht2e)
  · have hre : x ++ (status_block t2 S2 P2 ++ (y ++ "\n".data)) =
        x ++ (STATUS_START ++ (blockMid t2 S2 P2 ++ (STATUS_END ++ (y ++ "\n".data)))) := by
      rw [status_block_eq]
      simp [List.append_assoc]
    rw [hre]
    exact split0_of_decomp (by decide) borderFree_START
      (not_infix_of_count_zero (by decide) hxs)
  · have hre2 : x ++ (status_block t2 S2 P2 ++ (y ++ "\n".data)) =
        (x ++ (STATUS_START ++ blockMid t2 S2 P2)) ++ (STATUS_END ++ (y ++ "\n".data)) := by
      rw [status_block_eq]
      simp [List.append_assoc]
    have h1 : countOccs STATUS_END (STATUS_START ++ blockMid t2 S2 P2) = 0 := by
      rw [countOccs_append_of_noSpan STATUS_END (by decide) STATUS_START _
        (noSpan_concrete_left (by decide) (by decide)),
        show countOccs STATUS_END STATUS_START = 0 from by decide,
        blockMid_count_END hS2e ht2e]
    have hA : countOccs STATUS_END (x ++ (STATUS_START ++ blockMid t2 S2 P2)) = 0 := by
      rcases hxl with rfl | hx
      · rw [List.nil_append]
        exact h1
      · rw [countOccs_append_of_noSpan STATUS_END (by decide) x _
          (noSpan_of_last_left hx (by decide)), hxe, h1]
    have hB : countOccs STATUS_END (y ++ "\n".data) = 0 := by
      rw [countOccs_append_of_noSpan STATUS_END (by decide) y _
        (noSpan_of_head_right (show ("\n".data : List Char).head? = some '\n' from rfl)
          (by decide)),
        hye, countOccs_nl_zero (by decide) (by decide)]
    rw [hre2]
    exact split1after_of_decomp (by decide) borderFree_END
      (not_infix_of_count_zero (by decide) hA)
      (not_infix_of_count_zero (by decide) hB)

/-! ## Claim C1: merge idempotence -/

/-- Neither status delimiter occurs in the text. -/
@[reducible] def CleanOf (x : List Char) : Prop :=
  countOccs STATUS_START x = 0 ∧ countOccs STATUS_END x = 0

theorem splitD (A M B : List Char)
    (hAs : countOccs STATUS_START A = 0) (hAe : countOccs STATUS_END A = 0)
    (hMe : countOccs STATUS_END M = 0) (hBe : countOccs STATUS_END B = 0) :
    split0 STATUS_START (A ++ (STATUS_START ++ (M ++ (STATUS_END ++ B)))) = A ∧
    split1after STATUS_END (A ++ (STATUS_START ++ (M ++ (STATUS_END ++ B)))) = B := by
  constructor
  · exact split0_of_decomp (by decide) borderFree_START
      (not_infix_of_count_zero (by decide) hAs)
  · have hD2 : A ++ (STATUS_START ++ (M ++ (STATUS_END ++ B))) =
        (A ++ (STATUS_START ++ M)) ++ (STATUS_END ++ B) := by
      simp [List.append_assoc]
    have hpreE : countOccs STATUS_END (A ++ (STATUS_START ++ M)) = 0 := by
      rw [countOccs_append_of_noSpan STATUS_END (by decide) A _
        (@noSpan_append_right STATUS_END A STATUS_START M (by decide) (by decide)), hAe]
      rw [countOccs_append_of_noSpan STATUS_END (by decide) STATUS_START M
        (noSpan_concrete_left (by decide) (by decide)),
        show countOccs STATUS_END STATUS_START = 0 from by decide, hMe]
    rw [hD2]
    exact split1after_of_decomp (by decide) borderFree_END
      (not_infix_of_count_zero (by decide) hpreE)
      (not_infix_of_count_zero (by decide) hBe)

/-- Claim C1 is false as stated, i.e. for EVERY description: a description
consisting of a lone end delimiter yields, after two merges, a text with two
start delimiters (the appended block's one and the one re-inserted next to the
stale end delimiter), not exactly one status block. -/
theorem update_status_twice_claim_false :
    countOccs STATUS_START
      (update_status_in_description "2026-01-02".data
        (update_status_in_description "2026-01-01".data STATUS_END "s".data "p".data)
        "sum".data "p2".data) = 2 := by decide

/-- Claim C1: merge idempotence of `update_status_in_description`.  As stated
(for every description) the claim is false — see
`update_status_twice_claim_false`.  Amended with the intended well-formedness
of the description (either no delimiter at all, or exactly one properly
ordered delimiter pair with delimiter-free surroundings) and delimiter-free
summaries and dates: merging twice yields exactly one start and one end
delimiter, and the stripped content before/after the block equals the
stripped non-block content of `D` (boundary whitespace is trimmed, as the
merge does). -/
theorem update_status_twice_wellformed
    (D S1 P1 S2 P2 t1 t2 : List Char)
    (hS1 : CleanOf S1) (ht1 : CleanOf t1)
    (hS2 : CleanOf S2) (ht2 : CleanOf t2)
    (hwf : CleanOf D ∨ ∃ A M B,
      D = A ++ (STATUS_START ++ (M ++ (STATUS_END ++ B))) ∧
      CleanOf A ∧ CleanOf M ∧ CleanOf B) :
    countOccs STATUS_START (update_status_in_description t2
        (update_status_in_description t1 D S1 P1) S2 P2) = 1 ∧
    countOccs STATUS_END (update_status_in_description t2
        (update_status_in_description t1 D S1 P1) S2 P2) = 1 ∧
    pyStrip (split0 STATUS_START (update_status_in_description t2
        (update_status_in_description t1 D S1 P1) S2 P2)) =
      pyStrip (split0 STATUS_START D) ∧
    pyStrip (split1after STATUS_END (update_status_in_description t2
        (update_status_in_description t1 D S1 P1) S2 P2)) =
      pyStrip (split1after STATUS_END D) := by
  obtain ⟨hS1s, hS1e⟩ := hS1
  obtain ⟨ht1s, ht1e⟩ := ht1
  obtain ⟨hS2s, hS2e⟩ := hS2
  obtain ⟨ht2s, ht2e⟩ := ht2
  rcases hwf with ⟨hDs, hDe⟩ | ⟨A, M, B, rfl, ⟨hAs, hAe⟩, ⟨_, hMe⟩, ⟨hBs, hBe⟩⟩
  · have h1 : update_status_in_description t1 D S1 P1 =
        (pyRstrip D ++ "\n\n".data) ++
          (STATUS_START ++ (blockMid t1 S1 P1 ++ (STATUS_END ++ "\n".data))) := by
      rw [mergeA_eq t1 D S1 P1 (not_infix_of_count_zero (by decide) hDs), status_block_eq]
      simp [List.append_assoc]
    have hAs' : countOccs STATUS_START (pyRstrip D ++ "\n\n".data) = 0 := by
      rw [countOccs_append_of_noSpan STATUS_START (by decide) _ _
        (noSpan_of_head_right (show ("\n\n".data : List Char).head? = some '\n' from rfl)
          (by decide)),
        count_zero_pyRstrip (by decide) hDs,
        show countOccs STATUS_START "\n\n".data = 0 from by decide]
    have hAe' : countOccs STATUS_END (pyRstrip D ++ "\n\n".data) = 0 := by
      rw [countOccs_append_of_noSpan STATUS_END (by decide) _ _
        (noSpan_of_head_right (show ("\n\n".data : List Char).head? = some '\n' from rfl)
          (by decide)),
        count_zero_pyRstrip (by decide) hDe,
        show countOccs STATUS_END "\n\n".data = 0 from by decide]
    have h3 := mergeB_eq t2 S2 P2 (pyRstrip D ++ "\n\n".data) (blockMid t1 S1 P1)
      "\n".data hAs' hAe' (blockMid_count_END hS1e ht1e)
      (show countOccs STATUS_END "\n".data = 0 from by decide)
    have h4 : mjS (pyRstrip D ++ "\n\n".data) (status_block t2 S2 P2) "\n".data =
        (if pyStrip D = [] then [] else pyStrip D ++ "\n".data) ++
          (status_block t2 S2 P2 ++ (([] : List Char) ++ "\n".data)) := by
      unfold mjS
      rw [pyStrip_append_nl2, pyStrip_rstrip,
        show pyStrip "\n".data = [] from by decide, if_pos rfl]
    obtain ⟨p1, p2, p3, p4⟩ := around_block_props t2 S2 P2
      (if pyStrip D = [] then [] else pyStrip D ++ "\n".data) []
      (count_opt_pad_left (by decide) (by decide) (count_zero_pyStrip (by decide) hDs))
      (count_opt_pad_left (by decide) (by decide) (count_zero_pyStrip (by decide) hDe))
      (countOccs_nil (by decide)) (countOccs_nil (by decide))
      (by
        by_cases h : pyStrip D = []
        · exact Or.inl (by rw [if_pos h])
        · exact Or.inr (by rw [if_neg h]; exact getLast?_append_right (by decide)))
      (Or.inl rfl) hS2s hS2e ht2s ht2e
    rw [h1, h3, h4]
    refine ⟨p1, p2, ?_, ?_⟩
    · rw [p3, pyStrip_opt_pad_left (pyStrip D) (pyStrip_idem D),
        split0_of_clean (by decide) (not_infix_of_count_zero (by decide) hDs)]
    · rw [p4, split1after_of_clean (by decide) (not_infix_of_count_zero (by decide) hDe)]
      decide
  · have h1 : update_status_in_description t1
        (A ++ (STATUS_START ++ (M ++ (STATUS_END ++ B)))) S1 P1 =
        mjS A (status_block t1 S1 P1) B := mergeB_eq t1 S1 P1 A M B hAs hAe hMe hBe
    have h2 : mjS A (status_block t1 S1 P1) B =
        (if pyStrip A = [] then [] else pyStrip A ++ "\n".data) ++
          (STATUS_START ++ (blockMid t1 S1 P1 ++ (STATUS_END ++
            ((if pyStrip B = [] then [] else "\n".data ++ pyStrip B) ++ "\n".data)))) := by
      unfold mjS
      rw [status_block_eq]
      simp [List.append_assoc]
    have hxs : countOccs STATUS_START
        (if pyStrip A = [] then [] else pyStrip A ++ "\n".data) = 0 :=
      count_opt_pad_left (by decide) (by decide) (count_zero_pyStrip (by decide) hAs)
    have hxe : countOccs STATUS_END
        (if pyStrip A = [] then [] else pyStrip A ++ "\n".data) = 0 :=
      count_opt_pad_left (by decide) (by decide) (count_zero_pyStrip (by decide) hAe)
    have hyBe : countOccs STATUS_END
        ((if pyStrip B = [] then [] else "\n".data ++ pyStrip B) ++ "\n".data) = 0 := by
      rw [countOccs_append_of_noSpan STATUS_END (by decide) _ _
        (noSpan_of_head_right (show ("\n".data : List Char).head? = some '\n' from rfl)
          (by decide)),
        count_opt_pad_right (by decide) (by decide) (count_zero_pyStrip (by decide) hBe),
        countOccs_nl_zero (by decide) (by decide)]
    have h3 := mergeB_eq t2 S2 P2
      (if pyStrip A = [] then [] else pyStrip A ++ "\n".data)
      (blockMid t1 S1 P1)
      ((if pyStrip B = [] then [] else "\n".data ++ pyStrip B) ++ "\n".data)
      hxs hxe (blockMid_count_END hS1e ht1e) hyBe
    have h4 : mjS (if pyStrip A = [] then [] else pyStrip A ++ "\n".data)
        (status_block t2 S2 P2)
        ((if pyStrip B = [] then [] else "\n".data ++ pyStrip B) ++ "\n".data) =
        (if pyStrip A = [] then [] else pyStrip A ++ "\n".data) ++
          (status_block t2 S2 P2 ++
            ((if pyStrip B = [] then [] else "\n".data ++ pyStrip B) ++ "\n".data)) := by
      unfold mjS
      rw [pyStrip_opt_pad_left (pyStrip A) (pyStrip_idem A),
        pyStrip_opt_pad_right_nl (pyStrip B) (pyStrip_idem B)]
    obtain ⟨p1, p2, p3, p4⟩ := around_block_props t2 S2 P2
      (if pyStrip A = [] then [] else pyStrip A ++ "\n".data)
      (if pyStrip B = [] then [] else "\n".data ++ pyStrip B)
      hxs hxe
      (count_opt_pad_right (by decide) (by decide) (count_zero_pyStrip (by decide) hBs))
      (count_opt_pad_right (by decide) (by decide) (count_zero_pyStrip (by decide) hBe))
      (by
        by_cases h : pyStrip A = []
        · exact Or.inl (by rw [if_pos h])
        · exact Or.inr (by rw [if_neg h]; exact getLast?_append_right (by decide)))
      (by
        by_cases h : pyStrip B = []
        · exact Or.inl (by rw [if_pos h])
        · exact Or.inr (by rw [if_neg h]; rfl))
      hS2s hS2e ht2s ht2e
    obtain ⟨d0, d1⟩ := splitD A M B hAs hAe hMe hBe
    rw [h1, h2, h3, h4]
    refine ⟨p1, p2, ?_, ?_⟩
    · rw [p3, pyStrip_opt_pad_left (pyStrip A) (pyStrip_idem A), d0]
    · rw [p4, pyStrip_opt_pad_right_nl (pyStrip B) (pyStrip_idem B), d1]

theorem update_status_twice_wellformed_witness :
    countOccs STATUS_START (update_status_in_description "2026-01-02".data
        (update_status_in_description "2026-01-01".data
          ("Intro".data ++ (STATUS_START ++ ("\nmid".data ++ (STATUS_END ++ "\ntail".data))))
          "s1".data "p1".data) "s2".data "p2".data) = 1 ∧
    countOccs STATUS_END (update_status_in_description "2026-01-02".data
        (update_status_in_description "2026-01-01".data
          ("Intro".data ++ (STATUS_START ++ ("\nmid".data ++ (STATUS_END ++ "\ntail".data))))
          "s1".data "p1".data) "s2".data "p2".data) = 1 ∧
    pyStrip (split0 STATUS_START (update_status_in_description "2026-01-02".data
        (update_status_in_description "2026-01-01".data
          ("Intro".data ++ (STATUS_START ++ ("\nmid".data ++ (STATUS_END ++ "\ntail".data))))
          "s1".data "p1".data) "s2".data "p2".data)) =
      pyStrip (split0 STATUS_START
        ("Intro".data ++ (STATUS_START ++ ("\nmid".data ++ (STATUS_END ++ "\ntail".data))))) ∧
    pyStrip (split1after STATUS_END (update_status_in_description "2026-01-02".data
        (update_status_in_description "2026-01-01".data
          ("Intro".data ++ (STATUS_START ++ ("\nmid".data ++ (STATUS_END ++ "\ntail".data))))
          "s1".data "p1".data) "s2".data "p2".data)) =
      pyStrip (split1after STATUS_END
        ("Intro".data ++ (STATUS_START ++ ("\nmid".data ++ (STATUS_END ++ "\ntail".data))))) :=
  update_status_twice_wellformed
    ("Intro".data ++ (STATUS_START ++ ("\nmid".data ++ (STATUS_END ++ "\ntail".data))))
    "s1".data "p1".data "s2".data "p2".data "2026-01-01".data "2026-01-02".data
    (by decide) (by decide) (by decide) (by decide)
    (Or.inr ⟨"Intro".data, "\nmid".data, "\ntail".data, rfl,
      (by decide), (by decide), (by decide)⟩)

